import Mathlib

/-!
A verification development for the spatial/entity simulation core of a 2D
arcade game: the AABB collision primitive, the fixed-timestep game loop,
the quadtree, and the entity manager with its spatial grid hash.

Numbers are modelled as exact rationals; JavaScript Map/Set containers are
modelled as association lists with JavaScript insertion semantics; code
paths that throw are modelled with Except.
-/

namespace Collision

/-- Axis-aligned bounding box, as in Collision.ts: origin plus extents. -/
structure BoundingBox where
  x : ℚ
  y : ℚ
  width : ℚ
  height : ℚ
deriving DecidableEq, Repr

/-- Horizontal side classification returned by getHorizontalDirection. -/
inductive HDir where
  | left
  | right
  | none
deriving DecidableEq, Repr

/-- Vertical side classification returned by getVerticalDirection. -/
inductive VDir where
  | top
  | bottom
  | none
deriving DecidableEq, Repr

/-- Result record of checkCollision: the colliding flag plus, when
colliding, overlap extents and a coarse direction classification. -/
structure CollisionResult where
  colliding : Bool
  overlap : Option (ℚ × ℚ)
  direction : Option (HDir × VDir)
deriving DecidableEq, Repr

/-- validateBoundingBox from Collision.ts: rejects negative width or
height (finiteness is automatic over the rationals). -/
def validateBoundingBox (b : BoundingBox) : Bool :=
  !(b.width < 0 || b.height < 0)

/-- getHorizontalDirection from Collision.ts: compares box centers with a
0.1 epsilon below which the answer is neutral. -/
def getHorizontalDirection (boxA boxB : BoundingBox) : HDir :=
  let centerA := boxA.x + boxA.width / 2
  let centerB := boxB.x + boxB.width / 2
  if |centerA - centerB| < 1/10 then HDir.none
  else if centerA < centerB then HDir.right else HDir.left

/-- getVerticalDirection from Collision.ts. -/
def getVerticalDirection (boxA boxB : BoundingBox) : VDir :=
  let centerA := boxA.y + boxA.height / 2
  let centerB := boxB.y + boxB.height / 2
  if |centerA - centerB| < 1/10 then VDir.none
  else if centerA < centerB then VDir.bottom else VDir.top

/-- checkCollision from Collision.ts: validates both boxes (throwing is
modelled by Except.error), then applies the closed-interval separation
test; when colliding it also reports overlap extents and direction. -/
def checkCollision (boxA boxB : BoundingBox) : Except String CollisionResult :=
  if !validateBoundingBox boxA || !validateBoundingBox boxB then
    Except.error "Collision check failed: Bounding box dimensions must be positive"
  else
    let colliding :=
      !(boxA.x + boxA.width < boxB.x ||
        boxB.x + boxB.width < boxA.x ||
        boxA.y + boxA.height < boxB.y ||
        boxB.y + boxB.height < boxA.y)
    if !colliding then
      Except.ok { colliding := false, overlap := Option.none, direction := Option.none }
    else
      let overlapX := min (boxA.x + boxA.width) (boxB.x + boxB.width) - max boxA.x boxB.x
      let overlapY := min (boxA.y + boxA.height) (boxB.y + boxB.height) - max boxA.y boxB.y
      Except.ok { colliding := true
                , overlap := Option.some (overlapX, overlapY)
                , direction := Option.some (getHorizontalDirection boxA boxB,
                                            getVerticalDirection boxA boxB) }

/-- The colliding flag of a checkCollision call, false on a thrown error. -/
def collidingOf (r : Except String CollisionResult) : Bool :=
  match r with
  | Except.ok res => res.colliding
  | Except.error _ => false

/-- Two closed intervals intersect. -/
def closedIntervalsOverlap (lo₁ hi₁ lo₂ hi₂ : ℚ) : Prop :=
  ∃ t : ℚ, lo₁ ≤ t ∧ t ≤ hi₁ ∧ lo₂ ≤ t ∧ t ≤ hi₂

/-- The two boxes overlap as closed intervals on both axes. -/
def boxesOverlapClosed (a b : BoundingBox) : Prop :=
  closedIntervalsOverlap a.x (a.x + a.width) b.x (b.x + b.width) ∧
  closedIntervalsOverlap a.y (a.y + a.height) b.y (b.y + b.height)

theorem closedIntervalsOverlap_iff {lo₁ hi₁ lo₂ hi₂ : ℚ}
    (h₁ : lo₁ ≤ hi₁) (h₂ : lo₂ ≤ hi₂) :
    closedIntervalsOverlap lo₁ hi₁ lo₂ hi₂ ↔ (lo₁ ≤ hi₂ ∧ lo₂ ≤ hi₁) := by
  constructor
  · rintro ⟨t, ht₁, ht₂, ht₃, ht₄⟩
    exact ⟨le_trans ht₁ ht₄, le_trans ht₃ ht₂⟩
  · rintro ⟨hab, hba⟩
    refine ⟨max lo₁ lo₂, le_max_left _ _, ?_, le_max_right _ _, ?_⟩
    · exact max_le h₁ hba
    · exact max_le hab h₂

theorem closedIntervalsOverlap_symm (a b c d : ℚ) :
    closedIntervalsOverlap a b c d ↔ closedIntervalsOverlap c d a b := by
  constructor <;> rintro ⟨t, h₁, h₂, h₃, h₄⟩ <;> exact ⟨t, h₃, h₄, h₁, h₂⟩

theorem checkCollision_ok {a b : BoundingBox}
    (ha : 0 ≤ a.width ∧ 0 ≤ a.height) (hb : 0 ≤ b.width ∧ 0 ≤ b.height) :
    ∃ res, checkCollision a b = Except.ok res := by
  have hva : validateBoundingBox a = true := by
    simp [validateBoundingBox, not_lt.mpr ha.1, not_lt.mpr ha.2]
  have hvb : validateBoundingBox b = true := by
    simp [validateBoundingBox, not_lt.mpr hb.1, not_lt.mpr hb.2]
  unfold checkCollision
  rw [hva, hvb]
  simp only [Bool.not_true, Bool.or_self, Bool.false_eq_true, if_false]
  by_cases h : (!(decide (a.x + a.width < b.x) || decide (b.x + b.width < a.x) ||
      decide (a.y + a.height < b.y) || decide (b.y + b.height < a.y))) = true
  · rw [h]
    simp
  · rw [Bool.not_eq_true] at h
    rw [h]
    simp

theorem collidingOf_checkCollision {a b : BoundingBox}
    (ha : 0 ≤ a.width ∧ 0 ≤ a.height) (hb : 0 ≤ b.width ∧ 0 ≤ b.height) :
    collidingOf (checkCollision a b) =
      decide (a.x ≤ b.x + b.width ∧ b.x ≤ a.x + a.width ∧
              a.y ≤ b.y + b.height ∧ b.y ≤ a.y + a.height) := by
  have hva : validateBoundingBox a = true := by
    simp [validateBoundingBox, not_lt.mpr ha.1, not_lt.mpr ha.2]
  have hvb : validateBoundingBox b = true := by
    simp [validateBoundingBox, not_lt.mpr hb.1, not_lt.mpr hb.2]
  unfold checkCollision
  rw [hva, hvb]
  simp only [Bool.not_true, Bool.or_self, Bool.false_eq_true, if_false]
  by_cases hx1 : a.x + a.width < b.x <;>
    by_cases hx2 : b.x + b.width < a.x <;>
      by_cases hy1 : a.y + a.height < b.y <;>
        by_cases hy2 : b.y + b.height < a.y <;>
          simp [collidingOf, hx1, hx2, hy1, hy2, not_lt.mp, le_of_not_lt]

/-- C5: for valid boxes (width and height non-negative; all fields are
exact rationals, hence finite), checkCollision reports colliding exactly
when the boxes overlap as closed intervals on both axes (touching edges
collide); the flag is symmetric in the two arguments; and every valid box
collides with itself, including zero-size boxes. -/
theorem checkCollision_closed_overlap_symm_refl (a b : BoundingBox)
    (ha : 0 ≤ a.width ∧ 0 ≤ a.height) (hb : 0 ≤ b.width ∧ 0 ≤ b.height) :
    (collidingOf (checkCollision a b) = true ↔ boxesOverlapClosed a b) ∧
    collidingOf (checkCollision a b) = collidingOf (checkCollision b a) ∧
    collidingOf (checkCollision a a) = true := by
  have key : ∀ p q : BoundingBox, (0 ≤ p.width ∧ 0 ≤ p.height) →
      (0 ≤ q.width ∧ 0 ≤ q.height) →
      (collidingOf (checkCollision p q) = true ↔ boxesOverlapClosed p q) := by
    intro p q hp hq
    rw [collidingOf_checkCollision hp hq]
    rw [decide_eq_true_eq]
    rw [boxesOverlapClosed,
      closedIntervalsOverlap_iff (by linarith [hp.1]) (by linarith [hq.1]),
      closedIntervalsOverlap_iff (by linarith [hp.2]) (by linarith [hq.2])]
    tauto
  refine ⟨key a b ha hb, ?_, ?_⟩
  · have h₁ := key a b ha hb
    have h₂ := key b a hb ha
    have hsym : boxesOverlapClosed a b ↔ boxesOverlapClosed b a :=
      and_congr (closedIntervalsOverlap_symm _ _ _ _)
        (closedIntervalsOverlap_symm _ _ _ _)
    rw [Bool.eq_iff_iff, h₁, h₂]
    exact hsym
  · rw [key a a ha ha]
    refine ⟨⟨a.x, le_refl _, by linarith [ha.1], le_refl _, by linarith [ha.1]⟩,
      ⟨a.y, le_refl _, by linarith [ha.2], le_refl _, by linarith [ha.2]⟩⟩

/-- Witness for C5 at concrete boxes: a unit box at the origin and a unit
box touching its right edge collide (touching edges count). -/
theorem checkCollision_closed_overlap_symm_refl_witness :
    collidingOf (checkCollision ⟨0, 0, 1, 1⟩ ⟨1, 0, 1, 1⟩) = true :=
  (checkCollision_closed_overlap_symm_refl ⟨0, 0, 1, 1⟩ ⟨1, 0, 1, 1⟩
    (by norm_num) (by norm_num)).1.mpr
    ⟨⟨1, by norm_num, by norm_num, by norm_num, by norm_num⟩,
     ⟨0, by norm_num, by norm_num, by norm_num, by norm_num⟩⟩

end Collision

namespace GameLoopM

/-- State of the GameLoop class from GameLoop.ts that is relevant to the
fixed-timestep drain: configuration (frameTime, maxUpdatesPerFrame) and
the mutable fields running, lastTime, accumulated. -/
structure GameLoop where
  frameTime : ℚ
  maxUpdatesPerFrame : ℕ
  running : Bool
  lastTime : ℚ
  accumulated : ℚ
deriving DecidableEq, Repr

/-- The while-loop of GameLoop.loop that drains the accumulator: while
accumulated >= frameTime, invoke the update callback, subtract frameTime,
count the update, and on reaching maxUpdatesPerFrame call handlePanic
(which zeroes the accumulator and invokes the panic callback) and break.
Returns the final accumulator, the number of update invocations, the
number of panic-callback invocations, and the trace of accumulator values
observed immediately after each update is consumed (before any zeroing by
handlePanic). The fuel argument only bounds recursion; fuel equal to
maxUpdatesPerFrame is always sufficient because the loop breaks when the
update count reaches maxUpdatesPerFrame. -/
def drain (ft : ℚ) (maxU : ℕ) : ℕ → ℚ → ℕ → ℚ × ℕ × ℕ × List ℚ
  | 0, acc, _ => (acc, 0, 0, [])
  | fuel + 1, acc, updates =>
    if ft ≤ acc then
      let acc' := acc - ft
      let updates' := updates + 1
      if maxU ≤ updates' then (0, 1, 1, [acc'])
      else
        let r := drain ft maxU fuel acc' updates'
        (r.1, r.2.1 + 1, r.2.2.1, acc' :: r.2.2.2)
    else (acc, 0, 0, [])

/-- Observable outcome of one invocation of GameLoop.loop: the state
afterwards, how many times the update callback ran, how many times the
panic callback ran, whether the render callback ran, the interpolation
fraction passed to render, and the trace of accumulator values right
after each consumed update. -/
structure FrameResult where
  state : GameLoop
  updates : ℕ
  panics : ℕ
  rendered : Bool
  interpolation : ℚ
  accTrace : List ℚ
deriving DecidableEq, Repr

/-- GameLoop.loop from GameLoop.ts: on a running loop, compute the delta
since lastTime, store currentTime into lastTime, clamp any delta above
1000 ms to one frameTime, add to the accumulator, drain it at the fixed
timestep (with panic handling), then render with interpolation =
accumulated / frameTime. Callbacks are modelled as pure counters; the
throwing paths are modelled separately by frameAbort. -/
def GameLoop.frame (g : GameLoop) (currentTime : ℚ) : FrameResult :=
  if g.running = false then
    ⟨g, 0, 0, false, 0, []⟩
  else
    let delta0 := currentTime - g.lastTime
    let delta := if 1000 < delta0 then g.frameTime else delta0
    let acc0 := g.accumulated + delta
    let r := drain g.frameTime g.maxUpdatesPerFrame g.maxUpdatesPerFrame acc0 0
    let interpolation := r.1 / g.frameTime
    ⟨{ g with lastTime := currentTime, accumulated := r.1 },
      r.2.1, r.2.2.1, true, interpolation, r.2.2.2⟩

/-- GameLoop.start: an early return when already running, otherwise set
running, reset lastTime to the current clock and the accumulator to 0. -/
def GameLoop.start (g : GameLoop) (now : ℚ) : GameLoop :=
  if g.running then g
  else { g with running := true, lastTime := now, accumulated := 0 }

/-- GameLoop.stop: an early return when not running, otherwise clear the
running flag (cancelAnimationFrame has no modelled state). -/
def GameLoop.stop (g : GameLoop) : GameLoop :=
  if !g.running then g
  else { g with running := false }

/-- A loop invocation in which the update or render callback throws: the
loop catches, calls this.stop(), and rethrows. The state reached is the
post-drain state with stop applied (a throw earlier in the drain only
differs in the accumulated value, which is irrelevant to the running
flag). -/
def GameLoop.frameAbort (g : GameLoop) (currentTime : ℚ) : GameLoop :=
  if g.running then ((g.frame currentTime).state).stop else g

/-- The public operations that can change a GameLoop state. -/
inductive Op where
  | start (now : ℚ)
  | stop
  | frame (currentTime : ℚ)
  | frameAbort (currentTime : ℚ)
deriving DecidableEq, Repr

/-- Apply one operation to a GameLoop state. -/
def applyOp (g : GameLoop) : Op → GameLoop
  | Op.start now => g.start now
  | Op.stop => g.stop
  | Op.frame t => (g.frame t).state
  | Op.frameAbort t => g.frameAbort t

end GameLoopM

namespace GameLoopM

theorem frame_preserves_running (g : GameLoop) (t : ℚ) :
    ((g.frame t).state).running = g.running := by
  unfold GameLoop.frame
  by_cases h : g.running = false
  · rw [if_pos h]
  · rw [if_neg h]

/-- The drain loop always terminates with an accumulator strictly below
the fixed timestep, given positive timestep and enough fuel (fuel at
least maxU - updates and at least 1, as holds at the call site). -/
theorem drain_acc_lt (ft : ℚ) (maxU : ℕ) (hft : 0 < ft) :
    ∀ fuel acc updates, 1 ≤ fuel → maxU ≤ updates + fuel →
      (drain ft maxU fuel acc updates).1 < ft := by
  intro fuel
  induction fuel with
  | zero => intro acc updates h1 _; omega
  | succ fuel ih =>
    intro acc updates _ hbound
    unfold drain
    by_cases hacc : ft ≤ acc
    · rw [if_pos hacc]
      by_cases hmax : maxU ≤ updates + 1
      · rw [if_pos hmax]
        exact hft
      · rw [if_neg hmax]
        have hfuel1 : 1 ≤ fuel := by omega
        exact ih (acc - ft) (updates + 1) hfuel1 (by omega)
    · rw [if_neg hacc]
      exact lt_of_not_le hacc

/-- If the accumulator holds at least (maxU - updates) whole timesteps,
the drain loop reaches the update ceiling: it performs exactly
maxU - updates updates, invokes handlePanic exactly once, and leaves the
accumulator at 0. -/
theorem drain_panic (ft : ℚ) (maxU : ℕ) (hft : 0 < ft) :
    ∀ fuel acc updates, updates < maxU → maxU ≤ updates + fuel →
      ((maxU - updates : ℕ) : ℚ) * ft ≤ acc →
      (drain ft maxU fuel acc updates).1 = 0 ∧
      (drain ft maxU fuel acc updates).2.1 = maxU - updates ∧
      (drain ft maxU fuel acc updates).2.2.1 = 1 := by
  intro fuel
  induction fuel with
  | zero => intro acc updates h1 h2; omega
  | succ fuel ih =>
    intro acc updates hlt hbound hacc
    have hone : (1 : ℚ) ≤ ((maxU - updates : ℕ) : ℚ) := by
      have : 1 ≤ maxU - updates := by omega
      exact_mod_cast this
    have hft_le : ft ≤ acc := by nlinarith
    unfold drain
    rw [if_pos hft_le]
    by_cases hmax : maxU ≤ updates + 1
    · rw [if_pos hmax]
      have : maxU - updates = 1 := by omega
      simp [this]
    · rw [if_neg hmax]
      have hsub : ((maxU - (updates + 1) : ℕ) : ℚ) * ft ≤ acc - ft := by
        have hcast : ((maxU - updates : ℕ) : ℚ) = ((maxU - (updates + 1) : ℕ) : ℚ) + 1 := by
          have : maxU - updates = (maxU - (updates + 1)) + 1 := by omega
          rw [this]
          push_cast
          ring
        rw [hcast] at hacc
        nlinarith
      have hr := ih (acc - ft) (updates + 1) (by omega) (by omega) hsub
      refine ⟨hr.1, ?_, hr.2.2⟩
      have h21 := hr.2.1
      simp only [h21]
      omega

end GameLoopM

namespace GameLoopM

/-- A 60 Hz GameLoop (frameTime = 1000/60 ms), just started: running,
lastTime 0, empty accumulator, default panic ceiling 10. -/
def sixtyHz : GameLoop :=
  { frameTime := 1000 / 60
  , maxUpdatesPerFrame := 10
  , running := true
  , lastTime := 0
  , accumulated := 0 }

/-- First loop callback of the C7 scenario: wall-clock delta 16.67 ms. -/
def c7r1 : FrameResult := sixtyHz.frame (1667 / 100)

/-- Second callback: delta 16.67 ms (clock 33.34). -/
def c7r2 : FrameResult := c7r1.state.frame (1667 / 50)

/-- Third callback: delta 50 ms (clock 83.34). -/
def c7r3 : FrameResult := c7r2.state.frame (4167 / 50)

/-- Fourth callback: delta 16.67 ms (clock 100.01). -/
def c7r4 : FrameResult := c7r3.state.frame (10001 / 100)

/-- C7: at 60 Hz with an empty accumulator, the wall-clock deltas
16.67, 16.67, 50, 16.67 ms make the loop invoke the update callback
exactly 1, 1, 3 and 1 times in the four respective callbacks, and the
interpolation fraction handed to the render callback lies in [0, 1)
after each of the four callbacks. -/
theorem sixtyHz_delta_sequence_updates_interpolation :
    (c7r1.updates = 1 ∧ c7r2.updates = 1 ∧ c7r3.updates = 3 ∧ c7r4.updates = 1) ∧
    (0 ≤ c7r1.interpolation ∧ c7r1.interpolation < 1) ∧
    (0 ≤ c7r2.interpolation ∧ c7r2.interpolation < 1) ∧
    (0 ≤ c7r3.interpolation ∧ c7r3.interpolation < 1) ∧
    (0 ≤ c7r4.interpolation ∧ c7r4.interpolation < 1) :=
  of_decide_eq_true (by with_unfolding_all rfl)

end GameLoopM

namespace GameLoopM

/-- C8 counterexample: for the delta 2000 ms — which needs more than
maxUpdatesPerFrame = 10 fixed updates to drain, since 10 * frameTime <
2000 — the spiral-of-death clamp replaces the delta by one frameTime, so
the panic callback is never invoked (and only one update runs). -/
theorem frame_large_delta_clamped_no_panic :
    (10 : ℚ) * sixtyHz.frameTime < 2000 - sixtyHz.lastTime ∧
    (sixtyHz.frame 2000).panics = 0 ∧
    (sixtyHz.frame 2000).updates = 1 :=
  of_decide_eq_true (by with_unfolding_all rfl)

/-- C8 (amended): in a frame callback whose incoming delta is at most the
1000 ms clamp threshold and requires more than maxUpdatesPerFrame fixed
updates to drain, the panic callback is invoked exactly once and the
accumulator is 0 immediately after the drain. -/
theorem frame_panic_once_accumulator_zero (g : GameLoop) (t : ℚ)
    (hrun : g.running = true) (hft : 0 < g.frameTime)
    (hmax : 1 ≤ g.maxUpdatesPerFrame) (hacc : 0 ≤ g.accumulated)
    (hclamp : t - g.lastTime ≤ 1000)
    (hbig : (g.maxUpdatesPerFrame : ℚ) * g.frameTime < t - g.lastTime) :
    (g.frame t).panics = 1 ∧ (g.frame t).state.accumulated = 0 := by
  unfold GameLoop.frame
  rw [if_neg (by simp [hrun])]
  dsimp only
  rw [if_neg (not_lt.mpr hclamp)]
  have hkey := drain_panic g.frameTime g.maxUpdatesPerFrame hft
    g.maxUpdatesPerFrame (g.accumulated + (t - g.lastTime)) 0
    (by omega) (by omega)
    (by simp only [Nat.sub_zero]; linarith)
  exact ⟨hkey.2.2, hkey.1⟩

/-- Witness for the amended C8 at a concrete input: a 500 ms delta on the
60 Hz loop (500 ≤ 1000 and 10 · 1000/60 < 500) panics exactly once and
zeroes the accumulator. -/
theorem frame_panic_once_accumulator_zero_witness :
    (sixtyHz.frame 500).panics = 1 ∧ (sixtyHz.frame 500).state.accumulated = 0 :=
  frame_panic_once_accumulator_zero sixtyHz 500 rfl (by norm_num [sixtyHz])
    (by norm_num [sixtyHz]) (by norm_num [sixtyHz]) (by norm_num [sixtyHz])
    (by norm_num [sixtyHz])

/-- C9 counterexample: on the 60 Hz loop a 50 ms delta is drained in
three updates, and immediately after the first consumed update the
accumulator is 100/3 ms, which is not below the fixed timestep 50/3 ms;
the claimed invariant fails at that intermediate point. -/
theorem frame_trace_not_all_below_timestep :
    ¬ (∀ a ∈ (sixtyHz.frame 50).accTrace, a < sixtyHz.frameTime) :=
  of_decide_eq_true (by with_unfolding_all rfl)

/-- C9 (amended): the accumulator is strictly below the fixed timestep
immediately after the drain loop of a frame callback finishes (i.e. after
the last fixed update consumed in that callback), for every running loop
with a positive timestep and a positive panic ceiling. -/
theorem frame_accumulated_lt_frameTime (g : GameLoop) (t : ℚ)
    (hrun : g.running = true) (hft : 0 < g.frameTime)
    (hmax : 1 ≤ g.maxUpdatesPerFrame) :
    (g.frame t).state.accumulated < g.frameTime := by
  unfold GameLoop.frame
  rw [if_neg (by simp [hrun])]
  dsimp only
  exact drain_acc_lt g.frameTime g.maxUpdatesPerFrame hft
    g.maxUpdatesPerFrame _ 0 hmax (by omega)

/-- Witness for the amended C9: after the 50 ms callback on the 60 Hz
loop the accumulator is below 1000/60 ms. -/
theorem frame_accumulated_lt_frameTime_witness :
    (sixtyHz.frame 50).state.accumulated < sixtyHz.frameTime :=
  frame_accumulated_lt_frameTime sixtyHz 50 rfl (by norm_num [sixtyHz])
    (by norm_num [sixtyHz])

/-- C10: start is idempotent (calling it while running leaves the whole
state unchanged: lastTime and the accumulator are not reset), stop is
idempotent (calling it while stopped changes nothing), and across all
operations the running flag becomes true only through start and false
only through stop — where a callback that throws reaches false precisely
by the stop call the loop performs before rethrowing (the frameAbort
operation, defined as stop applied to the post-frame state). -/
theorem start_stop_idempotent_and_running_transitions :
    (∀ (g : GameLoop) (now : ℚ), g.running = true → g.start now = g) ∧
    (∀ g : GameLoop, g.running = false → g.stop = g) ∧
    (∀ (g : GameLoop) (op : Op), (applyOp g op).running = true →
      g.running = false → ∃ now, op = Op.start now) ∧
    (∀ (g : GameLoop) (op : Op), (applyOp g op).running = false →
      g.running = true → op = Op.stop ∨ ∃ t, op = Op.frameAbort t) := by
  refine ⟨?_, ?_, ?_, ?_⟩
  · intro g now h
    simp [GameLoop.start, h]
  · intro g h
    simp [GameLoop.stop, h]
  · intro g op hafter hbefore
    cases op with
    | start now => exact ⟨now, rfl⟩
    | stop =>
      exfalso
      simp [applyOp, GameLoop.stop, hbefore] at hafter
    | frame t =>
      exfalso
      rw [applyOp, frame_preserves_running, hbefore] at hafter
      exact absurd hafter (by simp)
    | frameAbort t =>
      exfalso
      rw [applyOp] at hafter
      unfold GameLoop.frameAbort at hafter
      rw [hbefore] at hafter
      simp only [Bool.false_eq_true, if_false] at hafter
      rw [hafter] at hbefore
      exact absurd hbefore (by simp)
  · intro g op hafter hbefore
    cases op with
    | start now =>
      exfalso
      rw [applyOp] at hafter
      unfold GameLoop.start at hafter
      rw [hbefore] at hafter
      simp only [if_true] at hafter
      rw [hafter] at hbefore
      exact absurd hbefore (by simp)
    | stop => exact Or.inl rfl
    | frame t =>
      exfalso
      rw [applyOp, frame_preserves_running, hbefore] at hafter
      exact absurd hafter (by simp)
    | frameAbort t => exact Or.inr ⟨t, rfl⟩

/-- Witness for C10 at concrete states: start on a running loop with
nonzero lastTime and accumulator returns it unchanged, and stop on a
stopped loop returns it unchanged. -/
theorem start_stop_idempotent_witness :
    GameLoop.start ⟨1000 / 60, 10, true, 5, 7⟩ 99 = ⟨1000 / 60, 10, true, 5, 7⟩ ∧
    GameLoop.stop ⟨1000 / 60, 10, false, 5, 7⟩ = ⟨1000 / 60, 10, false, 5, 7⟩ :=
  ⟨start_stop_idempotent_and_running_transitions.1 ⟨1000 / 60, 10, true, 5, 7⟩ 99 rfl,
   start_stop_idempotent_and_running_transitions.2.1 ⟨1000 / 60, 10, false, 5, 7⟩ rfl⟩

end GameLoopM

namespace QT

/-- Boundary rectangle of a QuadTree node, from QuadTree.ts. -/
structure Bounds where
  x : ℚ
  y : ℚ
  width : ℚ
  height : ℚ
deriving DecidableEq, Repr

/-- A collision object: an id plus a bounding box, from QuadTree.ts. -/
structure CollisionObject where
  id : String
  bounds : Bounds
deriving DecidableEq, Repr

/-- CONFIG.MAX_OBJECTS: maximum objects per node before splitting. -/
def MAX_OBJECTS : ℕ := 10

/-- CONFIG.MAX_LEVELS: maximum depth of the tree. -/
def MAX_LEVELS : ℕ := 5

/-- CONFIG.MIN_SIZE: minimum node size in pixels. -/
def MIN_SIZE : ℚ := 16

/-- A QuadTree node: bounds, directly-held objects, either no children or
exactly four children (the TS nodes array is always [] or length 4), and
a depth level. -/
inductive QuadTree where
  | node (bounds : Bounds) (objects : List CollisionObject)
      (nodes : Option (QuadTree × QuadTree × QuadTree × QuadTree)) (level : ℕ)

/-- Child lookup this.nodes[i]; returns Option.none exactly when the
JavaScript expression would be undefined. -/
def quadGet (q : QuadTree × QuadTree × QuadTree × QuadTree) (i : ℕ) : Option QuadTree :=
  match i with
  | 0 => Option.some q.1
  | 1 => Option.some q.2.1
  | 2 => Option.some q.2.2.1
  | 3 => Option.some q.2.2.2
  | _ => Option.none

/-- Replace child i in the four-tuple of children. -/
def quadSet (q : QuadTree × QuadTree × QuadTree × QuadTree) (i : ℕ) (c : QuadTree) :
    QuadTree × QuadTree × QuadTree × QuadTree :=
  match i with
  | 0 => (c, q.2.1, q.2.2.1, q.2.2.2)
  | 1 => (q.1, c, q.2.2.1, q.2.2.2)
  | 2 => (q.1, q.2.1, c, q.2.2.2)
  | 3 => (q.1, q.2.1, q.2.2.1, c)
  | _ => q

/-- getIndex from QuadTree.ts: which quadrant of a node with bounds nb an
object with bounds ob fits entirely inside (0 top-left, 1 top-right,
2 bottom-left, 3 bottom-right), or Option.none for the TS value -1 when
it straddles a midpoint. -/
def getIndex (nb ob : Bounds) : Option ℕ :=
  let verticalMidpoint := nb.x + nb.width / 2
  let horizontalMidpoint := nb.y + nb.height / 2
  if ob.y < horizontalMidpoint ∧ ob.y + ob.height < horizontalMidpoint then
    if ob.x < verticalMidpoint ∧ ob.x + ob.width < verticalMidpoint then Option.some 0
    else if ob.x > verticalMidpoint then Option.some 1
    else Option.none
  else if ob.y > horizontalMidpoint then
    if ob.x < verticalMidpoint ∧ ob.x + ob.width < verticalMidpoint then Option.some 2
    else if ob.x > verticalMidpoint then Option.some 3
    else Option.none
  else Option.none

/-- split from QuadTree.ts: four equal child quadrants at level + 1,
unless a resulting dimension would drop below MIN_SIZE, in which case the
nodes array stays empty (modelled by Option.none). -/
def split (b : Bounds) (level : ℕ) : Option (QuadTree × QuadTree × QuadTree × QuadTree) :=
  let subWidth := b.width / 2
  let subHeight := b.height / 2
  if subWidth < MIN_SIZE ∨ subHeight < MIN_SIZE then Option.none
  else
    Option.some
      ( QuadTree.node ⟨b.x, b.y, subWidth, subHeight⟩ [] Option.none (level + 1)
      , QuadTree.node ⟨b.x + subWidth, b.y, subWidth, subHeight⟩ [] Option.none (level + 1)
      , QuadTree.node ⟨b.x, b.y + subHeight, subWidth, subHeight⟩ [] Option.none (level + 1)
      , QuadTree.node ⟨b.x + subWidth, b.y + subHeight, subWidth, subHeight⟩ [] Option.none (level + 1))

/-- The redistribution while-loop inside insert: walk the held objects in
order; an object whose getIndex is not -1 is spliced out and inserted
into this.nodes[index] — which is undefined (a TypeError, modelled as
Except.error) whenever the children were never created because split
was skipped; other objects stay. ins is the insert function for the
children (one level deeper). -/
def redistribute (ins : QuadTree → CollisionObject → Except String QuadTree) (b : Bounds) :
    List CollisionObject → Option (QuadTree × QuadTree × QuadTree × QuadTree) →
    Except String (List CollisionObject × Option (QuadTree × QuadTree × QuadTree × QuadTree))
  | [], ch => Except.ok ([], ch)
  | o :: rest, ch =>
    match getIndex b o.bounds with
    | Option.none =>
      match redistribute ins b rest ch with
      | Except.error e => Except.error e
      | Except.ok (kept, ch') => Except.ok (o :: kept, ch')
    | Option.some i =>
      match ch with
      | Option.none => Except.error "TypeError: cannot read insert of undefined"
      | Option.some four =>
        match quadGet four i with
        | Option.none => Except.error "TypeError: cannot read insert of undefined"
        | Option.some child =>
          match ins child o with
          | Except.error e => Except.error e
          | Except.ok child' => redistribute ins b rest (Option.some (quadSet four i child'))

/-- The push-then-maybe-split tail of insert: append the object, and if
the count now exceeds MAX_OBJECTS with level below MAX_LEVELS, call
split when there are no children yet and then redistribute (the TS code
redistributes unconditionally, even when split declined to create
children). -/
def pushAndMaybeSplit (ins : QuadTree → CollisionObject → Except String QuadTree)
    (b : Bounds) (objs : List CollisionObject)
    (ch : Option (QuadTree × QuadTree × QuadTree × QuadTree)) (lvl : ℕ) :
    Except String QuadTree :=
  if MAX_OBJECTS < objs.length ∧ lvl < MAX_LEVELS then
    let ch1 :=
      match ch with
      | Option.none => split b lvl
      | Option.some four => Option.some four
    match redistribute ins b objs ch1 with
    | Except.error e => Except.error e
    | Except.ok (kept, ch2) => Except.ok (QuadTree.node b kept ch2 lvl)
  else Except.ok (QuadTree.node b objs ch lvl)

/-- insert from QuadTree.ts (the object-validity guard at the top is
vacuous in this embedding since objects always carry bounds): with
children present and a quadrant index, route into that child and return;
otherwise push here and maybe split/redistribute. The fuel argument only
bounds recursion depth; the claims below use ample fuel, and the errors
they exhibit are the modelled TypeErrors, never fuel exhaustion. -/
def insert : ℕ → QuadTree → CollisionObject → Except String QuadTree
  | 0, _, _ => Except.error "fuel exhausted"
  | fuel + 1, QuadTree.node b objs ch lvl, o =>
    match ch with
    | Option.some four =>
      match getIndex b o.bounds with
      | Option.some i =>
        match quadGet four i with
        | Option.none => Except.error "TypeError: cannot read insert of undefined"
        | Option.some child =>
          match insert fuel child o with
          | Except.error e => Except.error e
          | Except.ok child' =>
            Except.ok (QuadTree.node b objs (Option.some (quadSet four i child')) lvl)
      | Option.none => pushAndMaybeSplit (insert fuel) b (objs ++ [o]) (Option.some four) lvl
    | Option.none => pushAndMaybeSplit (insert fuel) b (objs ++ [o]) Option.none lvl

/-- Insert a list of objects in sequence, stopping at the first thrown
error, as a caller of QuadTree.insert would. -/
def insertSeq (fuel : ℕ) : QuadTree → List CollisionObject → Except String QuadTree
  | t, [] => Except.ok t
  | t, o :: rest =>
    match insert fuel t o with
    | Except.error e => Except.error e
    | Except.ok t' => insertSeq fuel t' rest

end QT

namespace QT

/-- C3 (evaluation of the code at the failing input): in a 20 x 20 root
node — whose half-dimensions 10 are below MIN_SIZE = 16 — at depth
0 < MAX_LEVELS, the 11th insert pushes the object count above
MAX_OBJECTS = 10, split is skipped, yet the redistribution loop still
dereferences the empty children array and throws a TypeError, instead of
completing normally with every object kept at the node as the claim
states. -/
theorem insert_min_size_skip_split_throws :
    insertSeq 10 (QuadTree.node ⟨0, 0, 20, 20⟩ [] Option.none 0)
        (List.replicate 11 ⟨"o", ⟨0, 0, 1, 1⟩⟩) =
      Except.error "TypeError: cannot read insert of undefined" := by
  with_unfolding_all rfl

/-- C4 (evaluation of the code at the failing input): a fresh 64 x 64
root whose quadrants (32 x 32) are at or above MIN_SIZE, receiving
N = 11 > MAX_OBJECTS objects that each fit entirely inside one quadrant,
with root depth 0 < MAX_LEVELS. The root does split, but the inserts
cascade: the level-2 node is 16 x 16, its split is skipped (8 < 16), and
the redistribution there throws the same TypeError during the 11th
insert — so retrieve can never be reached, contradicting the claim that
all N objects are retrievable afterwards. -/
theorem insert_cascade_below_min_size_throws :
    MIN_SIZE ≤ (64 : ℚ) / 2 ∧
    insertSeq 10 (QuadTree.node ⟨0, 0, 64, 64⟩ [] Option.none 0)
        (List.replicate 11 ⟨"o", ⟨0, 0, 1, 1⟩⟩) =
      Except.error "TypeError: cannot read insert of undefined" :=
  ⟨by norm_num [MIN_SIZE], by with_unfolding_all rfl⟩

end QT

namespace EM

/-- 2D vector type used for entity positions. -/
structure Vector2D where
  x : ℚ
  y : ℚ
deriving DecidableEq, Repr

/-- Entity identifiers are strings. -/
abbrev EntityId := String

/-- Entity type tags (a fixed enumeration in the source; its identity is
irrelevant to the manager, which only compares tags). -/
abbrev EntityType := String

/-- The Entity interface as consumed by EntityManager.ts: an id, a
position, a type tag, and the update method owned entirely by the entity
itself, modelled as a pure function from the elapsed time and the current
position to the new position (per the spec the manager observes nothing
else of an entity's behavioral state, and the tag is fixed). -/
structure Entity where
  id : EntityId
  position : Vector2D
  type : EntityType
  updateFn : ℚ → Vector2D → Vector2D

/-- entity.update(deltaTime): the entity updates its own position. -/
def Entity.update (e : Entity) (deltaTime : ℚ) : Entity :=
  { e with position := e.updateFn deltaTime e.position }

/-- Map.get: find the value bound to a key, if any. -/
def lookupKey {κ β : Type} [DecidableEq κ] : List (κ × β) → κ → Option β
  | [], _ => Option.none
  | (k, v) :: rest, k' => if k = k' then Option.some v else lookupKey rest k'

/-- Map.set: overwrite the binding in place if the key is present,
otherwise append it (JavaScript insertion-order semantics). -/
def setKey {κ β : Type} [DecidableEq κ] : List (κ × β) → κ → β → List (κ × β)
  | [], k, v => [(k, v)]
  | (k', v') :: rest, k, v =>
    if k' = k then (k, v) :: rest else (k', v') :: setKey rest k v

/-- Map.delete: drop the binding for a key. -/
def delKey {κ β : Type} [DecidableEq κ] : List (κ × β) → κ → List (κ × β)
  | [], _ => []
  | (k', v') :: rest, k =>
    if k' = k then delKey rest k else (k', v') :: delKey rest k

/-- Set.add: append the element if it is not already present. -/
def listAdd (l : List EntityId) (x : EntityId) : List EntityId :=
  if x ∈ l then l else l ++ [x]

/-- Set.delete: remove the element. -/
def listDel : List EntityId → EntityId → List EntityId
  | [], _ => []
  | y :: rest, x => if y = x then listDel rest x else y :: listDel rest x

/-- The id is a member of the bucket stored under the given key. -/
def inBucket {κ : Type} [DecidableEq κ]
    (h : List (κ × List EntityId)) (k : κ) (i : EntityId) : Prop :=
  ∃ b, lookupKey h k = Option.some b ∧ i ∈ b

/-- The state of EntityManager.ts: the primary entity map, the spatial
hash (cell keys are the integer pairs written "x,y" in the source; the
string encoding is injective on pairs, so pairs are used directly), the
type index and the update queue. -/
structure EntityManager where
  entities : List (EntityId × Entity)
  spatialHash : List ((ℤ × ℤ) × List EntityId)
  entityTypeCache : List (EntityType × List EntityId)
  updateQueue : List EntityId

/-- CELL_SIZE: size of the spatial partitioning cells. -/
def CELL_SIZE : ℚ := 100

/-- A fresh EntityManager. -/
def emptyManager : EntityManager := ⟨[], [], [], []⟩

/-- getCellKey from EntityManager.ts: floor-divide both coordinates by
the cell size. -/
def getCellKey (position : Vector2D) : ℤ × ℤ :=
  (⌊position.x / CELL_SIZE⌋, ⌊position.y / CELL_SIZE⌋)

/-- addToSpatialHash: ensure the cell's bucket exists, then add the id. -/
def addToSpatialHash (m : EntityManager) (e : Entity) : EntityManager :=
  let cell := getCellKey e.position
  let bucket := (lookupKey m.spatialHash cell).getD []
  { m with spatialHash := setKey m.spatialHash cell (listAdd bucket e.id) }

/-- this.spatialHash.get(cell)?.delete(id): delete the id from the bucket
of the given cell, a no-op when the bucket is absent. -/
def deleteFromCell (m : EntityManager) (cell : ℤ × ℤ) (i : EntityId) : EntityManager :=
  match lookupKey m.spatialHash cell with
  | Option.none => m
  | Option.some b => { m with spatialHash := setKey m.spatialHash cell (listDel b i) }

/-- removeFromSpatialHash: drop the id from the bucket of the entity's
current cell. -/
def removeFromSpatialHash (m : EntityManager) (e : Entity) : EntityManager :=
  deleteFromCell m (getCellKey e.position) e.id

/-- updateEntityTypeCache: ensure the type's id-set exists, then add. -/
def updateEntityTypeCache (m : EntityManager) (e : Entity) : EntityManager :=
  let bucket := (lookupKey m.entityTypeCache e.type).getD []
  { m with entityTypeCache := setKey m.entityTypeCache e.type (listAdd bucket e.id) }

/-- removeFromEntityTypeCache: drop the id from its type's id-set. -/
def removeFromEntityTypeCache (m : EntityManager) (e : Entity) : EntityManager :=
  match lookupKey m.entityTypeCache e.type with
  | Option.none => m
  | Option.some b =>
    { m with entityTypeCache := setKey m.entityTypeCache e.type (listDel b e.id) }

/-- addEntity from EntityManager.ts: throws (Except.error, before any
mutation, so a failed call leaves the manager unchanged) when the id is
already registered; otherwise inserts into the primary map, the spatial
hash and the type index, and marks the entity for update. -/
def addEntity (m : EntityManager) (e : Entity) : Except String EntityManager :=
  match lookupKey m.entities e.id with
  | Option.some _ => Except.error "Entity with ID already exists"
  | Option.none =>
    let m₁ := { m with entities := setKey m.entities e.id e }
    let m₂ := addToSpatialHash m₁ e
    let m₃ := updateEntityTypeCache m₂ e
    Except.ok { m₃ with updateQueue := listAdd m₃.updateQueue e.id }

/-- removeEntity from EntityManager.ts: a no-op for an unknown id,
otherwise removes the entity from all three indices and the queue. -/
def removeEntity (m : EntityManager) (i : EntityId) : EntityManager :=
  match lookupKey m.entities i with
  | Option.none => m
  | Option.some e =>
    let m₁ := removeFromSpatialHash m e
    let m₂ := removeFromEntityTypeCache m₁ e
    { m₂ with entities := delKey m₂.entities i, updateQueue := listDel m₂.updateQueue i }

/-- hasPositionChanged: strict inequality on either coordinate. -/
def hasPositionChanged (pos1 pos2 : Vector2D) : Bool :=
  decide (pos1.x ≠ pos2.x) || decide (pos1.y ≠ pos2.y)

/-- updateEntityPosition: when the cell key changed, delete the id from
the old cell's bucket and rehash the entity into its new cell. -/
def updateEntityPosition (m : EntityManager) (e : Entity) (oldPosition : Vector2D) :
    EntityManager :=
  let oldCell := getCellKey oldPosition
  let newCell := getCellKey e.position
  if oldCell ≠ newCell then addToSpatialHash (deleteFromCell m oldCell e.id) e
  else m

/-- The body of the update loop for one queued id: look the entity up
(skipping ids that are somehow stale), capture the old position, run the
entity's own update (the mutation of the shared object is modelled by
storing the updated entity back into the map), and rehash only if the
position actually changed. -/
def updateStep (deltaTime : ℚ) (m : EntityManager) (i : EntityId) : EntityManager :=
  match lookupKey m.entities i with
  | Option.none => m
  | Option.some e =>
    let oldPosition := e.position
    let e' := e.update deltaTime
    let m₁ := { m with entities := setKey m.entities i e' }
    if hasPositionChanged oldPosition e'.position then updateEntityPosition m₁ e' oldPosition
    else m₁

/-- update from EntityManager.ts: process every id in the update queue in
order (the queue itself is not modified by the loop). -/
def update (deltaTime : ℚ) (m : EntityManager) : EntityManager :=
  m.updateQueue.foldl (updateStep deltaTime) m

/-- isWithinRadius: squared-distance comparison against the squared
radius. -/
def isWithinRadius (pos1 pos2 : Vector2D) (radius : ℚ) : Bool :=
  decide ((pos1.x - pos2.x) * (pos1.x - pos2.x) +
          (pos1.y - pos2.y) * (pos1.y - pos2.y) ≤ radius * radius)

/-- The integers from a to b inclusive (the for-loop ranges of
getCellsInRadius). -/
def intsFromTo (a b : ℤ) : List ℤ :=
  (List.range (b + 1 - a).toNat).map (fun n : ℕ => a + (n : ℤ))

/-- getCellsInRadius: every cell within ceil(radius / cellSize) cells of
the query position's cell, in a square, in row-major loop order. -/
def getCellsInRadius (position : Vector2D) (radius : ℚ) : List (ℤ × ℤ) :=
  let cellRadius : ℤ := ⌈radius / CELL_SIZE⌉
  let centerX : ℤ := ⌊position.x / CELL_SIZE⌋
  let centerY : ℤ := ⌊position.y / CELL_SIZE⌋
  (intsFromTo (-cellRadius) cellRadius).flatMap fun dx =>
    (intsFromTo (-cellRadius) cellRadius).map fun dy => (centerX + dx, centerY + dy)

/-- Inner loop of queryRadius over one cell's bucket: resolve each id in
the primary map (silently dropping stale ids), keep those within the
radius, deduplicated by id — the Set of the source deduplicates by object
identity, and ids resolve to one object each. The accumulator keeps the
id alongside the entity. -/
def gatherBucket (m : EntityManager) (position : Vector2D) (radius : ℚ) :
    List EntityId → List (EntityId × Entity) → List (EntityId × Entity)
  | [], acc => acc
  | i :: rest, acc =>
    match lookupKey m.entities i with
    | Option.none => gatherBucket m position radius rest acc
    | Option.some e =>
      if isWithinRadius position e.position radius then
        match lookupKey acc i with
        | Option.some _ => gatherBucket m position radius rest acc
        | Option.none => gatherBucket m position radius rest (acc ++ [(i, e)])
      else gatherBucket m position radius rest acc

/-- Outer loop of queryRadius over the candidate cells. -/
def gatherCells (m : EntityManager) (position : Vector2D) (radius : ℚ) :
    List (ℤ × ℤ) → List (EntityId × Entity) → List (EntityId × Entity)
  | [], acc => acc
  | c :: rest, acc =>
    match lookupKey m.spatialHash c with
    | Option.none => gatherCells m position radius rest acc
    | Option.some bucket =>
      gatherCells m position radius rest (gatherBucket m position radius bucket acc)

/-- queryRadius from EntityManager.ts: scan the square of candidate
cells, filter by exact distance, and return the collected entities. -/
def queryRadius (m : EntityManager) (position : Vector2D) (radius : ℚ) : List Entity :=
  (gatherCells m position radius (getCellsInRadius position radius) []).map Prod.snd

/-- getEntitiesByType from EntityManager.ts: resolve the type index back
to entities, silently dropping stale ids. -/
def getEntitiesByType (m : EntityManager) (t : EntityType) : List Entity :=
  match lookupKey m.entityTypeCache t with
  | Option.none => []
  | Option.some ids => ids.filterMap fun i => lookupKey m.entities i

/-- The public mutating operations of the manager. -/
inductive EMOp where
  | add (e : Entity)
  | remove (i : EntityId)
  | update (deltaTime : ℚ)

/-- Apply one operation; a throwing addEntity leaves the state unchanged
(the throw happens before any mutation in the source). -/
def applyEMOp (m : EntityManager) : EMOp → EntityManager
  | EMOp.add e =>
    match addEntity m e with
    | Except.ok m' => m'
    | Except.error _ => m
  | EMOp.remove i => removeEntity m i
  | EMOp.update dt => update dt m

/-- Apply a sequence of operations from left to right. -/
def applyEMOps : EntityManager → List EMOp → EntityManager
  | m, [] => m
  | m, op :: rest => applyEMOps (applyEMOp m op) rest

end EM

namespace EM

theorem lookupKey_setKey_self {κ β : Type} [DecidableEq κ]
    (l : List (κ × β)) (k : κ) (v : β) :
    lookupKey (setKey l k v) k = Option.some v := by
  induction l with
  | nil => simp [setKey, lookupKey]
  | cons hd tl ih =>
    obtain ⟨k', v'⟩ := hd
    by_cases h : k' = k
    · simp [setKey, h, lookupKey]
    · simp [setKey, h, lookupKey, ih]

theorem lookupKey_setKey_ne {κ β : Type} [DecidableEq κ]
    (l : List (κ × β)) (k k' : κ) (v : β) (h : k' ≠ k) :
    lookupKey (setKey l k v) k' = lookupKey l k' := by
  induction l with
  | nil => simp [setKey, lookupKey, Ne.symm h]
  | cons hd tl ih =>
    obtain ⟨k₀, v₀⟩ := hd
    by_cases h₀ : k₀ = k
    · subst h₀
      simp [setKey, lookupKey, Ne.symm h]
    · simp only [setKey, if_neg h₀, lookupKey]
      by_cases h₁ : k₀ = k'
      · simp [h₁]
      · simp [h₁, ih]

theorem lookupKey_delKey_self {κ β : Type} [DecidableEq κ]
    (l : List (κ × β)) (k : κ) :
    lookupKey (delKey l k) k = Option.none := by
  induction l with
  | nil => simp [delKey, lookupKey]
  | cons hd tl ih =>
    obtain ⟨k₀, v₀⟩ := hd
    by_cases h₀ : k₀ = k
    · simp [delKey, h₀, ih]
    · simp [delKey, h₀, lookupKey, ih]

theorem lookupKey_delKey_ne {κ β : Type} [DecidableEq κ]
    (l : List (κ × β)) (k k' : κ) (h : k' ≠ k) :
    lookupKey (delKey l k) k' = lookupKey l k' := by
  induction l with
  | nil => simp [delKey]
  | cons hd tl ih =>
    obtain ⟨k₀, v₀⟩ := hd
    by_cases h₀ : k₀ = k
    · subst h₀
      simp [delKey, lookupKey, Ne.symm h, ih]
    · simp only [delKey, if_neg h₀, lookupKey]
      by_cases h₁ : k₀ = k'
      · simp [h₁]
      · simp [h₁, ih]

theorem lookupKey_mem {κ β : Type} [DecidableEq κ]
    {l : List (κ × β)} {k : κ} {v : β} (h : lookupKey l k = Option.some v) :
    (k, v) ∈ l := by
  induction l with
  | nil => simp [lookupKey] at h
  | cons hd tl ih =>
    obtain ⟨k₀, v₀⟩ := hd
    by_cases h₀ : k₀ = k
    · subst h₀
      simp [lookupKey] at h
      simp [h]
    · simp only [lookupKey, if_neg h₀] at h
      simp [ih h]

theorem lookupKey_append {κ β : Type} [DecidableEq κ]
    (l₁ l₂ : List (κ × β)) (k : κ) :
    lookupKey (l₁ ++ l₂) k =
      match lookupKey l₁ k with
      | Option.some v => Option.some v
      | Option.none => lookupKey l₂ k := by
  induction l₁ with
  | nil => simp [lookupKey]
  | cons hd tl ih =>
    obtain ⟨k₀, v₀⟩ := hd
    by_cases h₀ : k₀ = k
    · simp [lookupKey, h₀]
    · simp [lookupKey, h₀, ih]

theorem mem_listAdd_iff (l : List EntityId) (x y : EntityId) :
    y ∈ listAdd l x ↔ (y ∈ l ∨ y = x) := by
  unfold listAdd
  by_cases h : x ∈ l
  · simp only [if_pos h]
    constructor
    · exact Or.inl
    · rintro (hy | rfl)
      · exact hy
      · exact h
  · simp [if_neg h]

theorem mem_listDel_iff (l : List EntityId) (x y : EntityId) :
    y ∈ listDel l x ↔ (y ∈ l ∧ y ≠ x) := by
  induction l with
  | nil => simp [listDel]
  | cons hd tl ih =>
    by_cases h : hd = x
    · subst h
      rw [listDel, if_pos rfl, ih]
      simp only [List.mem_cons]
      constructor
      · rintro ⟨hy, hne⟩
        exact ⟨Or.inr hy, hne⟩
      · rintro ⟨hy | hy, hne⟩
        · exact absurd hy hne
        · exact ⟨hy, hne⟩
    · rw [listDel, if_neg h]
      constructor
      · intro hy
        rcases List.mem_cons.mp hy with rfl | hy'
        · exact ⟨List.mem_cons_self _ _, h⟩
        · obtain ⟨hm, hne⟩ := ih.mp hy'
          exact ⟨List.mem_cons_of_mem _ hm, hne⟩
      · rintro ⟨hy, hne⟩
        rcases List.mem_cons.mp hy with rfl | hy'
        · exact List.mem_cons_self _ _
        · exact List.mem_cons_of_mem _ (ih.mpr ⟨hy', hne⟩)

theorem inBucket_setKey_iff {κ : Type} [DecidableEq κ]
    (h : List (κ × List EntityId)) (k c : κ) (b : List EntityId) (i : EntityId) :
    inBucket (setKey h k b) c i ↔ (if c = k then i ∈ b else inBucket h c i) := by
  by_cases hc : c = k
  · subst hc
    simp only [if_pos rfl, inBucket, lookupKey_setKey_self]
    constructor
    · rintro ⟨b', hb', hm⟩
      cases hb'
      exact hm
    · intro hm
      exact ⟨b, rfl, hm⟩
  · simp only [if_neg hc, inBucket, lookupKey_setKey_ne h k c b hc]

theorem mem_getD_iff {κ : Type} [DecidableEq κ]
    (h : List (κ × List EntityId)) (k : κ) (i : EntityId) :
    i ∈ (lookupKey h k).getD [] ↔ inBucket h k i := by
  cases hl : lookupKey h k with
  | none => simp [inBucket, hl]
  | some b => simp [inBucket, hl]

end EM

namespace EM

theorem addToSpatialHash_entities (m : EntityManager) (e : Entity) :
    (addToSpatialHash m e).entities = m.entities := rfl

theorem addToSpatialHash_tcache (m : EntityManager) (e : Entity) :
    (addToSpatialHash m e).entityTypeCache = m.entityTypeCache := rfl

theorem addToSpatialHash_queue (m : EntityManager) (e : Entity) :
    (addToSpatialHash m e).updateQueue = m.updateQueue := rfl

theorem deleteFromCell_entities (m : EntityManager) (cell : ℤ × ℤ) (i : EntityId) :
    (deleteFromCell m cell i).entities = m.entities := by
  unfold deleteFromCell
  cases lookupKey m.spatialHash cell <;> rfl

theorem deleteFromCell_tcache (m : EntityManager) (cell : ℤ × ℤ) (i : EntityId) :
    (deleteFromCell m cell i).entityTypeCache = m.entityTypeCache := by
  unfold deleteFromCell
  cases lookupKey m.spatialHash cell <;> rfl

theorem deleteFromCell_queue (m : EntityManager) (cell : ℤ × ℤ) (i : EntityId) :
    (deleteFromCell m cell i).updateQueue = m.updateQueue := by
  unfold deleteFromCell
  cases lookupKey m.spatialHash cell <;> rfl

theorem updateEntityTypeCache_entities (m : EntityManager) (e : Entity) :
    (updateEntityTypeCache m e).entities = m.entities := rfl

theorem updateEntityTypeCache_hash (m : EntityManager) (e : Entity) :
    (updateEntityTypeCache m e).spatialHash = m.spatialHash := rfl

theorem updateEntityTypeCache_queue (m : EntityManager) (e : Entity) :
    (updateEntityTypeCache m e).updateQueue = m.updateQueue := rfl

theorem removeFromEntityTypeCache_entities (m : EntityManager) (e : Entity) :
    (removeFromEntityTypeCache m e).entities = m.entities := by
  unfold removeFromEntityTypeCache
  cases lookupKey m.entityTypeCache e.type <;> rfl

theorem removeFromEntityTypeCache_hash (m : EntityManager) (e : Entity) :
    (removeFromEntityTypeCache m e).spatialHash = m.spatialHash := by
  unfold removeFromEntityTypeCache
  cases lookupKey m.entityTypeCache e.type <;> rfl

theorem removeFromEntityTypeCache_queue (m : EntityManager) (e : Entity) :
    (removeFromEntityTypeCache m e).updateQueue = m.updateQueue := by
  unfold removeFromEntityTypeCache
  cases lookupKey m.entityTypeCache e.type <;> rfl

theorem inBucket_addToSpatialHash (m : EntityManager) (e : Entity) (c : ℤ × ℤ) (i : EntityId) :
    inBucket (addToSpatialHash m e).spatialHash c i ↔
      (inBucket m.spatialHash c i ∨ (c = getCellKey e.position ∧ i = e.id)) := by
  unfold addToSpatialHash
  rw [inBucket_setKey_iff]
  by_cases hc : c = getCellKey e.position
  · rw [if_pos hc]
    rw [mem_listAdd_iff, mem_getD_iff]
    subst hc
    tauto
  · rw [if_neg hc]
    tauto

theorem inBucket_deleteFromCell (m : EntityManager) (cell : ℤ × ℤ) (j : EntityId)
    (c : ℤ × ℤ) (i : EntityId) :
    inBucket (deleteFromCell m cell j).spatialHash c i ↔
      (inBucket m.spatialHash c i ∧ ¬(c = cell ∧ i = j)) := by
  unfold deleteFromCell
  cases hb : lookupKey m.spatialHash cell with
  | none =>
    constructor
    · intro h
      refine ⟨h, ?_⟩
      rintro ⟨rfl, rfl⟩
      obtain ⟨b, hb', _⟩ := h
      rw [hb] at hb'
      cases hb'
    · exact fun h => h.1
  | some b =>
    show inBucket (setKey m.spatialHash cell (listDel b j)) c i ↔ _
    rw [inBucket_setKey_iff]
    by_cases hc : c = cell
    · rw [if_pos hc]
      rw [mem_listDel_iff]
      subst hc
      constructor
      · rintro ⟨hm, hne⟩
        exact ⟨⟨b, hb, hm⟩, by tauto⟩
      · rintro ⟨⟨b', hb', hm⟩, hne⟩
        rw [hb] at hb'
        cases hb'
        exact ⟨hm, by tauto⟩
    · rw [if_neg hc]
      tauto

theorem inBucket_updateEntityTypeCache (m : EntityManager) (e : Entity)
    (t : EntityType) (i : EntityId) :
    inBucket (updateEntityTypeCache m e).entityTypeCache t i ↔
      (inBucket m.entityTypeCache t i ∨ (t = e.type ∧ i = e.id)) := by
  unfold updateEntityTypeCache
  rw [inBucket_setKey_iff]
  by_cases ht : t = e.type
  · rw [if_pos ht]
    rw [mem_listAdd_iff, mem_getD_iff]
    subst ht
    tauto
  · rw [if_neg ht]
    tauto

theorem inBucket_removeFromEntityTypeCache (m : EntityManager) (e : Entity)
    (t : EntityType) (i : EntityId) :
    inBucket (removeFromEntityTypeCache m e).entityTypeCache t i ↔
      (inBucket m.entityTypeCache t i ∧ ¬(t = e.type ∧ i = e.id)) := by
  unfold removeFromEntityTypeCache
  cases hb : lookupKey m.entityTypeCache e.type with
  | none =>
    constructor
    · intro h
      refine ⟨h, ?_⟩
      rintro ⟨rfl, rfl⟩
      obtain ⟨b, hb', _⟩ := h
      rw [hb] at hb'
      cases hb'
    · exact fun h => h.1
  | some b =>
    show inBucket (setKey m.entityTypeCache e.type (listDel b e.id)) t i ↔ _
    rw [inBucket_setKey_iff]
    by_cases ht : t = e.type
    · rw [if_pos ht]
      rw [mem_listDel_iff]
      subst ht
      constructor
      · rintro ⟨hm, hne⟩
        exact ⟨⟨b, hb, hm⟩, by tauto⟩
      · rintro ⟨⟨b', hb', hm⟩, hne⟩
        rw [hb] at hb'
        cases hb'
        exact ⟨hm, by tauto⟩
    · rw [if_neg ht]
      tauto

end EM

namespace EM

/-- The well-formedness invariant the manager maintains across all its
mutating operations: keys of the primary map match entity ids; the
spatial hash holds exactly the live ids, each under its entity's current
cell and nowhere else; the type index holds exactly the live ids under
their entity's tag; the update queue holds exactly the live ids. -/
structure Inv (m : EntityManager) : Prop where
  keyId : ∀ i e, lookupKey m.entities i = Option.some e → e.id = i
  hash : ∀ c i, inBucket m.spatialHash c i ↔
    ∃ e, lookupKey m.entities i = Option.some e ∧ getCellKey e.position = c
  tcache : ∀ t i, inBucket m.entityTypeCache t i ↔
    ∃ e, lookupKey m.entities i = Option.some e ∧ e.type = t
  queue : ∀ i, i ∈ m.updateQueue ↔ ∃ e, lookupKey m.entities i = Option.some e

theorem inv_empty : Inv emptyManager := by
  constructor
  · intro i e h
    simp [emptyManager, lookupKey] at h
  · intro c i
    simp [emptyManager, inBucket, lookupKey]
  · intro t i
    simp [emptyManager, inBucket, lookupKey]
  · intro i
    simp [emptyManager, lookupKey]

theorem addEntity_ok_eq (m : EntityManager) (e : Entity)
    (hnone : lookupKey m.entities e.id = Option.none) :
    addEntity m e = Except.ok
      { entities := setKey m.entities e.id e
      , spatialHash := setKey m.spatialHash (getCellKey e.position)
          (listAdd ((lookupKey m.spatialHash (getCellKey e.position)).getD []) e.id)
      , entityTypeCache := setKey m.entityTypeCache e.type
          (listAdd ((lookupKey m.entityTypeCache e.type).getD []) e.id)
      , updateQueue := listAdd m.updateQueue e.id } := by
  unfold addEntity addToSpatialHash updateEntityTypeCache
  rw [hnone]

theorem addEntity_error_iff (m : EntityManager) (e : Entity) :
    (∃ msg, addEntity m e = Except.error msg) ↔
      (∃ e₀, lookupKey m.entities e.id = Option.some e₀) := by
  unfold addEntity
  cases h : lookupKey m.entities e.id with
  | none => simp
  | some e₀ => simp

theorem inv_addEntity (m : EntityManager) (e : Entity) (m' : EntityManager)
    (hinv : Inv m) (hok : addEntity m e = Except.ok m') : Inv m' := by
  cases hlook : lookupKey m.entities e.id with
  | some e₀ =>
    rw [show addEntity m e = Except.error "Entity with ID already exists" by
      unfold addEntity; rw [hlook]] at hok
    cases hok
  | none =>
    rw [addEntity_ok_eq m e hlook] at hok
    injection hok with hok
    subst hok
    constructor
    · intro i e' h
      by_cases hi : i = e.id
      · subst hi
        rw [show lookupKey (setKey m.entities e.id e) e.id = Option.some e from
          lookupKey_setKey_self m.entities e.id e] at h
        cases h
        rfl
      · rw [show lookupKey (setKey m.entities e.id e) i = lookupKey m.entities i from
          lookupKey_setKey_ne m.entities e.id i e hi] at h
        exact hinv.keyId i e' h
    · intro c i
      rw [show (inBucket (setKey m.spatialHash (getCellKey e.position)
          (listAdd ((lookupKey m.spatialHash (getCellKey e.position)).getD []) e.id)) c i) ↔
          (if c = getCellKey e.position then
            i ∈ listAdd ((lookupKey m.spatialHash (getCellKey e.position)).getD []) e.id
          else inBucket m.spatialHash c i) from inBucket_setKey_iff _ _ _ _ _]
      by_cases hi : i = e.id
      · subst hi
        rw [lookupKey_setKey_self]
        have hold : ∀ c', ¬ inBucket m.spatialHash c' e.id := by
          intro c' hc'
          obtain ⟨e', he', _⟩ := (hinv.hash c' e.id).mp hc'
          rw [hlook] at he'
          cases he'
        by_cases hc : c = getCellKey e.position
        · subst hc
          rw [if_pos rfl, mem_listAdd_iff]
          simp
        · rw [if_neg hc]
          constructor
          · intro h
            exact absurd h (hold c)
          · rintro ⟨e', he', hcell⟩
            cases he'
            exact absurd hcell.symm hc
      · rw [lookupKey_setKey_ne m.entities e.id i e hi]
        by_cases hc : c = getCellKey e.position
        · rw [if_pos hc, mem_listAdd_iff, mem_getD_iff]
          rw [hc, hinv.hash (getCellKey e.position) i]
          constructor
            
          · rintro (h | h)
            · exact h
            · exact absurd h hi
          · exact Or.inl
        · rw [if_neg hc]
          exact hinv.hash c i
    · intro t i
      rw [show (inBucket (setKey m.entityTypeCache e.type
          (listAdd ((lookupKey m.entityTypeCache e.type).getD []) e.id)) t i) ↔
          (if t = e.type then
            i ∈ listAdd ((lookupKey m.entityTypeCache e.type).getD []) e.id
          else inBucket m.entityTypeCache t i) from inBucket_setKey_iff _ _ _ _ _]
      by_cases hi : i = e.id
      · subst hi
        rw [lookupKey_setKey_self]
        have hold : ∀ t', ¬ inBucket m.entityTypeCache t' e.id := by
          intro t' ht'
          obtain ⟨e', he', _⟩ := (hinv.tcache t' e.id).mp ht'
          rw [hlook] at he'
          cases he'
        by_cases ht : t = e.type
        · subst ht
          rw [if_pos rfl, mem_listAdd_iff]
          simp
        · rw [if_neg ht]
          constructor
          · intro h
            exact absurd h (hold t)
          · rintro ⟨e', he', htype⟩
            cases he'
            exact absurd htype.symm ht
      · rw [lookupKey_setKey_ne m.entities e.id i e hi]
        by_cases ht : t = e.type
        · rw [if_pos ht, mem_listAdd_iff, mem_getD_iff]
          rw [ht, hinv.tcache e.type i]
          constructor
          · rintro (h | h)
            · exact h
            · exact absurd h hi
          · exact Or.inl
        · rw [if_neg ht]
          exact hinv.tcache t i
    · intro i
      rw [mem_listAdd_iff]
      by_cases hi : i = e.id
      · subst hi
        rw [lookupKey_setKey_self]
        simp
      · rw [lookupKey_setKey_ne m.entities e.id i e hi]
        rw [hinv.queue i]
        constructor
        · rintro (h | h)
          · exact h
          · exact absurd h hi
        · exact Or.inl

end EM

namespace EM

theorem inv_removeEntity (m : EntityManager) (i : EntityId) (hinv : Inv m) :
    Inv (removeEntity m i) := by
  unfold removeEntity
  cases hlook : lookupKey m.entities i with
  | none => exact hinv
  | some e =>
    have hid : e.id = i := hinv.keyId i e hlook
    refine ⟨?_, ?_, ?_, ?_⟩
    · intro j e' h
      simp only [removeFromEntityTypeCache_entities, removeFromSpatialHash,
        deleteFromCell_entities] at h
      by_cases hj : j = i
      · subst hj
        rw [lookupKey_delKey_self] at h
        cases h
      · rw [lookupKey_delKey_ne _ i j hj] at h
        exact hinv.keyId j e' h
    · intro c j
      simp only [removeFromEntityTypeCache_entities, removeFromSpatialHash,
        deleteFromCell_entities, removeFromEntityTypeCache_hash]
      rw [inBucket_deleteFromCell]
      by_cases hj : j = i
      · subst hj
        rw [lookupKey_delKey_self]
        constructor
        · rintro ⟨hb, hne⟩
          exfalso
          obtain ⟨e', he', hcell⟩ := (hinv.hash c j).mp hb
          rw [hlook] at he'
          cases he'
          exact hne ⟨hcell.symm, hid.symm⟩
        · rintro ⟨e', he', _⟩
          cases he'
      · rw [lookupKey_delKey_ne _ i j hj]
        rw [← hinv.hash c j]
        constructor
        · rintro ⟨hb, _⟩
          exact hb
        · intro hb
          refine ⟨hb, ?_⟩
          rintro ⟨_, hje⟩
          exact hj (hje.trans hid)
    · intro t j
      simp only [removeFromEntityTypeCache_entities, removeFromSpatialHash,
        deleteFromCell_entities]
      rw [inBucket_removeFromEntityTypeCache]
      simp only [removeFromSpatialHash, deleteFromCell_tcache]
      by_cases hj : j = i
      · subst hj
        rw [lookupKey_delKey_self]
        constructor
        · rintro ⟨hb, hne⟩
          exfalso
          obtain ⟨e', he', htype⟩ := (hinv.tcache t j).mp hb
          rw [hlook] at he'
          cases he'
          exact hne ⟨htype.symm, hid.symm⟩
        · rintro ⟨e', he', _⟩
          cases he'
      · rw [lookupKey_delKey_ne _ i j hj]
        rw [← hinv.tcache t j]
        constructor
        · rintro ⟨hb, _⟩
          exact hb
        · intro hb
          refine ⟨hb, ?_⟩
          rintro ⟨_, hje⟩
          exact hj (hje.trans hid)
    · intro j
      simp only [removeFromEntityTypeCache_entities, removeFromSpatialHash,
        deleteFromCell_entities, removeFromEntityTypeCache_queue, deleteFromCell_queue]
      rw [mem_listDel_iff]
      by_cases hj : j = i
      · subst hj
        rw [lookupKey_delKey_self]
        simp
      · rw [lookupKey_delKey_ne _ i j hj]
        rw [hinv.queue j]
        constructor
        · rintro ⟨hm, _⟩
          exact hm
        · intro hm
          exact ⟨hm, hj⟩

end EM

namespace EM

theorem Entity.update_id (e : Entity) (dt : ℚ) : (e.update dt).id = e.id := rfl

theorem Entity.update_type (e : Entity) (dt : ℚ) : (e.update dt).type = e.type := rfl

theorem hasPositionChanged_eq_false_iff (p q : Vector2D) :
    hasPositionChanged p q = false ↔ p = q := by
  unfold hasPositionChanged
  cases p with
  | mk px py =>
    cases q with
    | mk qx qy =>
      simp [Vector2D.mk.injEq]

/-- Replacing a live entity by an updated version with the same id, type
and cell key preserves the invariant without touching the indices. -/
theorem inv_setSamePos (m : EntityManager) (i : EntityId) (e e' : Entity)
    (hinv : Inv m) (hlook : lookupKey m.entities i = Option.some e)
    (hid' : e'.id = i) (htype' : e'.type = e.type)
    (hcell' : getCellKey e'.position = getCellKey e.position) :
    Inv { m with entities := setKey m.entities i e' } := by
  refine ⟨?_, ?_, ?_, ?_⟩
  · intro j e'' h
    by_cases hj : j = i
    · subst hj
      rw [show lookupKey (setKey m.entities j e') j = Option.some e' from
        lookupKey_setKey_self m.entities j e'] at h
      cases h
      exact hid'
    · rw [lookupKey_setKey_ne m.entities i j e' hj] at h
      exact hinv.keyId j e'' h
  · intro c j
    show inBucket m.spatialHash c j ↔ _
    by_cases hj : j = i
    · subst hj
      rw [lookupKey_setKey_self]
      rw [hinv.hash c j]
      constructor
      · rintro ⟨e₀, he₀, hc₀⟩
        rw [hlook] at he₀
        cases he₀
        exact ⟨e', rfl, hcell'.trans hc₀⟩
      · rintro ⟨e₀, he₀, hc₀⟩
        cases he₀
        exact ⟨e, hlook, hcell' ▸ hc₀⟩
    · rw [lookupKey_setKey_ne m.entities i j e' hj]
      exact hinv.hash c j
  · intro t j
    show inBucket m.entityTypeCache t j ↔ _
    by_cases hj : j = i
    · subst hj
      rw [lookupKey_setKey_self]
      rw [hinv.tcache t j]
      constructor
      · rintro ⟨e₀, he₀, ht₀⟩
        rw [hlook] at he₀
        cases he₀
        exact ⟨e', rfl, htype'.trans ht₀⟩
      · rintro ⟨e₀, he₀, ht₀⟩
        cases he₀
        exact ⟨e, hlook, htype' ▸ ht₀⟩
    · rw [lookupKey_setKey_ne m.entities i j e' hj]
      exact hinv.tcache t j
  · intro j
    show j ∈ m.updateQueue ↔ _
    by_cases hj : j = i
    · subst hj
      rw [lookupKey_setKey_self]
      rw [hinv.queue j]
      simp [hlook]
    · rw [lookupKey_setKey_ne m.entities i j e' hj]
      exact hinv.queue j

end EM

namespace EM

/-- Rehashing a live entity whose cell key changed (delete from the old
cell bucket, add to the new one) preserves the invariant. -/
theorem inv_moveCell (m : EntityManager) (i : EntityId) (e e' : Entity)
    (hinv : Inv m) (hlook : lookupKey m.entities i = Option.some e)
    (hid' : e'.id = i) (htype' : e'.type = e.type) :
    Inv (addToSpatialHash
      (deleteFromCell { m with entities := setKey m.entities i e' }
        (getCellKey e.position) e'.id) e') := by
  have hid : e.id = i := hinv.keyId i e hlook
  have hm₁hash : ({ m with entities := setKey m.entities i e' } :
      EntityManager).spatialHash = m.spatialHash := rfl
  refine ⟨?_, ?_, ?_, ?_⟩
  · intro j e'' h
    rw [show (addToSpatialHash (deleteFromCell
        { m with entities := setKey m.entities i e' } (getCellKey e.position) e'.id)
        e').entities = setKey m.entities i e' from by
      rw [addToSpatialHash_entities, deleteFromCell_entities]] at h
    by_cases hj : j = i
    · subst hj
      rw [lookupKey_setKey_self] at h
      cases h
      exact hid'
    · rw [lookupKey_setKey_ne m.entities i j e' hj] at h
      exact hinv.keyId j e'' h
  · intro c j
    rw [show (addToSpatialHash (deleteFromCell
        { m with entities := setKey m.entities i e' } (getCellKey e.position) e'.id)
        e').entities = setKey m.entities i e' from by
      rw [addToSpatialHash_entities, deleteFromCell_entities]]
    rw [inBucket_addToSpatialHash, inBucket_deleteFromCell, hm₁hash, hid']
    by_cases hj : j = i
    · subst hj
      rw [lookupKey_setKey_self]
      have hbj : ∀ c', inBucket m.spatialHash c' j ↔ c' = getCellKey e.position := by
        intro c'
        rw [hinv.hash c' j]
        constructor
        · rintro ⟨e₀, he₀, hc₀⟩
          rw [hlook] at he₀
          cases he₀
          exact hc₀.symm
        · rintro rfl
          exact ⟨e, hlook, rfl⟩
      constructor
      · rintro (⟨hb, hne⟩ | ⟨rfl, _⟩)
        · exact absurd ⟨(hbj c).mp hb, rfl⟩ hne
        · exact ⟨e', rfl, rfl⟩
      · rintro ⟨e₀, he₀, hc₀⟩
        cases he₀
        exact Or.inr ⟨hc₀.symm, rfl⟩
    · rw [lookupKey_setKey_ne m.entities i j e' hj]
      rw [← hinv.hash c j]
      constructor
      · rintro (⟨hb, _⟩ | ⟨_, hje⟩)
        · exact hb
        · exact absurd hje hj
      · intro hb
        refine Or.inl ⟨hb, ?_⟩
        rintro ⟨_, hje⟩
        exact hj hje
  · intro t j
    rw [show (addToSpatialHash (deleteFromCell
        { m with entities := setKey m.entities i e' } (getCellKey e.position) e'.id)
        e').entities = setKey m.entities i e' from by
      rw [addToSpatialHash_entities, deleteFromCell_entities]]
    rw [show (addToSpatialHash (deleteFromCell
        { m with entities := setKey m.entities i e' } (getCellKey e.position) e'.id)
        e').entityTypeCache = m.entityTypeCache from by
      rw [addToSpatialHash_tcache, deleteFromCell_tcache]]
    by_cases hj : j = i
    · subst hj
      rw [lookupKey_setKey_self]
      rw [hinv.tcache t j]
      constructor
      · rintro ⟨e₀, he₀, ht₀⟩
        rw [hlook] at he₀
        cases he₀
        exact ⟨e', rfl, htype'.trans ht₀⟩
      · rintro ⟨e₀, he₀, ht₀⟩
        cases he₀
        exact ⟨e, hlook, htype' ▸ ht₀⟩
    · rw [lookupKey_setKey_ne m.entities i j e' hj]
      exact hinv.tcache t j
  · intro j
    rw [show (addToSpatialHash (deleteFromCell
        { m with entities := setKey m.entities i e' } (getCellKey e.position) e'.id)
        e').entities = setKey m.entities i e' from by
      rw [addToSpatialHash_entities, deleteFromCell_entities]]
    rw [show (addToSpatialHash (deleteFromCell
        { m with entities := setKey m.entities i e' } (getCellKey e.position) e'.id)
        e').updateQueue = m.updateQueue from by
      rw [addToSpatialHash_queue, deleteFromCell_queue]]
    by_cases hj : j = i
    · subst hj
      rw [lookupKey_setKey_self]
      rw [hinv.queue j]
      simp [hlook]
    · rw [lookupKey_setKey_ne m.entities i j e' hj]
      exact hinv.queue j

end EM

namespace EM

theorem inv_updateStep (dt : ℚ) (m : EntityManager) (i : EntityId) (hinv : Inv m) :
    Inv (updateStep dt m i) := by
  unfold updateStep
  split
  · exact hinv
  next e hlook =>
    dsimp only
    by_cases hch : hasPositionChanged e.position (e.update dt).position = true
    · rw [if_pos hch]
      unfold updateEntityPosition
      dsimp only
      by_cases hcell : getCellKey e.position ≠ getCellKey (e.update dt).position
      · rw [if_pos hcell]
        exact inv_moveCell m i e (e.update dt) hinv hlook
          ((Entity.update_id e dt).trans (hinv.keyId i e hlook))
          (Entity.update_type e dt)
      · rw [if_neg hcell]
        exact inv_setSamePos m i e (e.update dt) hinv hlook
          ((Entity.update_id e dt).trans (hinv.keyId i e hlook))
          (Entity.update_type e dt)
          (not_ne_iff.mp hcell).symm
    · rw [if_neg hch]
      have hpos : e.position = (e.update dt).position :=
        (hasPositionChanged_eq_false_iff _ _).mp (Bool.eq_false_iff.mpr hch)
      exact inv_setSamePos m i e (e.update dt) hinv hlook
        ((Entity.update_id e dt).trans (hinv.keyId i e hlook))
        (Entity.update_type e dt)
        (congrArg getCellKey hpos.symm)

theorem inv_foldl_updateStep (dt : ℚ) :
    ∀ (l : List EntityId) (m : EntityManager), Inv m → Inv (l.foldl (updateStep dt) m)
  | [], _, h => h
  | i :: rest, m, h => inv_foldl_updateStep dt rest _ (inv_updateStep dt m i h)

theorem inv_update (dt : ℚ) (m : EntityManager) (hinv : Inv m) : Inv (update dt m) :=
  inv_foldl_updateStep dt m.updateQueue m hinv

theorem inv_applyEMOp (m : EntityManager) (op : EMOp) (hinv : Inv m) :
    Inv (applyEMOp m op) := by
  cases op with
  | add e =>
    unfold applyEMOp
    dsimp only
    cases h : addEntity m e with
    | ok m' =>
      simp only [h]
      exact inv_addEntity m e m' hinv h
    | error err =>
      simp only [h]
      exact hinv
  | remove i => exact inv_removeEntity m i hinv
  | update dt => exact inv_update dt m hinv

theorem inv_applyEMOps : ∀ (ops : List EMOp) (m : EntityManager), Inv m →
    Inv (applyEMOps m ops)
  | [], _, h => h
  | op :: rest, m, h => inv_applyEMOps rest _ (inv_applyEMOp m op h)

/-- Every state reachable from a fresh manager satisfies the invariant. -/
theorem inv_reachable (ops : List EMOp) : Inv (applyEMOps emptyManager ops) :=
  inv_applyEMOps ops emptyManager inv_empty

end EM

namespace EM

theorem lookupKey_append_of_isSome {κ β : Type} [DecidableEq κ]
    {l₁ : List (κ × β)} (l₂ : List (κ × β)) {k : κ}
    (h : (lookupKey l₁ k).isSome = true) :
    lookupKey (l₁ ++ l₂) k = lookupKey l₁ k := by
  rw [lookupKey_append]
  cases hl : lookupKey l₁ k with
  | none => rw [hl] at h; cases h
  | some v => rfl

theorem gatherBucket_lookup_mono (m : EntityManager) (pos : Vector2D) (r : ℚ) :
    ∀ (bucket : List EntityId) (acc : List (EntityId × Entity)) (j : EntityId),
      (lookupKey acc j).isSome = true →
      (lookupKey (gatherBucket m pos r bucket acc) j).isSome = true := by
  intro bucket
  induction bucket with
  | nil => intro acc j h; exact h
  | cons i rest ih =>
    intro acc j h
    unfold gatherBucket
    cases hl : lookupKey m.entities i with
    | none => exact ih acc j h
    | some e =>
      dsimp only
      by_cases hw : isWithinRadius pos e.position r = true
      · rw [if_pos hw]
        cases ha : lookupKey acc i with
        | some _ => exact ih acc j h
        | none =>
          refine ih (acc ++ [(i, e)]) j ?_
          rw [lookupKey_append_of_isSome [(i, e)] h]
          exact h
      · rw [if_neg hw]
        exact ih acc j h

theorem gatherBucket_sound (m : EntityManager) (pos : Vector2D) (r : ℚ) :
    ∀ (bucket : List EntityId) (acc : List (EntityId × Entity))
      (p : EntityId × Entity), p ∈ gatherBucket m pos r bucket acc →
      p ∈ acc ∨ (lookupKey m.entities p.1 = Option.some p.2 ∧
        isWithinRadius pos p.2.position r = true) := by
  intro bucket
  induction bucket with
  | nil => intro acc p h; exact Or.inl h
  | cons i rest ih =>
    intro acc p h
    unfold gatherBucket at h
    cases hl : lookupKey m.entities i with
    | none =>
      rw [hl] at h
      exact ih acc p h
    | some e =>
      rw [hl] at h
      dsimp only at h
      by_cases hw : isWithinRadius pos e.position r = true
      · rw [if_pos hw] at h
        cases ha : lookupKey acc i with
        | some e₀ =>
          rw [ha] at h
          exact ih acc p h
        | none =>
          rw [ha] at h
          rcases ih (acc ++ [(i, e)]) p h with hmem | hp
          · rcases List.mem_append.mp hmem with hmem' | hmem'
            · exact Or.inl hmem'
            · rcases List.mem_singleton.mp hmem' with rfl
              exact Or.inr ⟨hl, hw⟩
          · exact Or.inr hp
      · rw [if_neg hw] at h
        exact ih acc p h

theorem gatherBucket_complete (m : EntityManager) (pos : Vector2D) (r : ℚ) :
    ∀ (bucket : List EntityId) (acc : List (EntityId × Entity))
      (j : EntityId) (e : Entity), j ∈ bucket →
      lookupKey m.entities j = Option.some e →
      isWithinRadius pos e.position r = true →
      (lookupKey (gatherBucket m pos r bucket acc) j).isSome = true := by
  intro bucket
  induction bucket with
  | nil => intro acc j e h; cases h
  | cons i rest ih =>
    intro acc j e hmem hle hw
    unfold gatherBucket
    by_cases hij : i = j
    · subst hij
      rw [hle]
      dsimp only
      rw [if_pos hw]
      cases ha : lookupKey acc i with
      | some e₀ =>
        refine gatherBucket_lookup_mono m pos r rest acc i ?_
        rw [ha]
        rfl
      | none =>
        refine gatherBucket_lookup_mono m pos r rest (acc ++ [(i, e)]) i ?_
        rw [lookupKey_append, ha]
        simp [lookupKey]
    · have hjrest : j ∈ rest := by
        rcases List.mem_cons.mp hmem with rfl | h
        · exact absurd rfl hij
        · exact h
      cases hl : lookupKey m.entities i with
      | none => exact ih acc j e hjrest hle hw
      | some e₀ =>
        dsimp only
        by_cases hw₀ : isWithinRadius pos e₀.position r = true
        · rw [if_pos hw₀]
          cases ha : lookupKey acc i with
          | some _ => exact ih acc j e hjrest hle hw
          | none => exact ih (acc ++ [(i, e₀)]) j e hjrest hle hw
        · rw [if_neg hw₀]
          exact ih acc j e hjrest hle hw

theorem gatherCells_lookup_mono (m : EntityManager) (pos : Vector2D) (r : ℚ) :
    ∀ (cells : List (ℤ × ℤ)) (acc : List (EntityId × Entity)) (j : EntityId),
      (lookupKey acc j).isSome = true →
      (lookupKey (gatherCells m pos r cells acc) j).isSome = true := by
  intro cells
  induction cells with
  | nil => intro acc j h; exact h
  | cons c rest ih =>
    intro acc j h
    unfold gatherCells
    cases hl : lookupKey m.spatialHash c with
    | none => exact ih acc j h
    | some bucket => exact ih _ j (gatherBucket_lookup_mono m pos r bucket acc j h)

theorem gatherCells_sound (m : EntityManager) (pos : Vector2D) (r : ℚ) :
    ∀ (cells : List (ℤ × ℤ)) (acc : List (EntityId × Entity))
      (p : EntityId × Entity), p ∈ gatherCells m pos r cells acc →
      p ∈ acc ∨ (lookupKey m.entities p.1 = Option.some p.2 ∧
        isWithinRadius pos p.2.position r = true) := by
  intro cells
  induction cells with
  | nil => intro acc p h; exact Or.inl h
  | cons c rest ih =>
    intro acc p h
    unfold gatherCells at h
    cases hl : lookupKey m.spatialHash c with
    | none =>
      rw [hl] at h
      exact ih acc p h
    | some bucket =>
      rw [hl] at h
      rcases ih _ p h with hmem | hp
      · exact gatherBucket_sound m pos r bucket acc p hmem
      · exact Or.inr hp

theorem gatherCells_complete (m : EntityManager) (pos : Vector2D) (r : ℚ) :
    ∀ (cells : List (ℤ × ℤ)) (acc : List (EntityId × Entity))
      (c : ℤ × ℤ) (j : EntityId) (e : Entity), c ∈ cells →
      inBucket m.spatialHash c j →
      lookupKey m.entities j = Option.some e →
      isWithinRadius pos e.position r = true →
      (lookupKey (gatherCells m pos r cells acc) j).isSome = true := by
  intro cells
  induction cells with
  | nil => intro acc c j e h; cases h
  | cons c₀ rest ih =>
    intro acc c j e hcmem hbucket hle hw
    unfold gatherCells
    by_cases hc : c₀ = c
    · subst hc
      obtain ⟨b, hb, hjb⟩ := hbucket
      rw [hb]
      exact gatherCells_lookup_mono m pos r rest _ j
        (gatherBucket_complete m pos r b acc j e hjb hle hw)
    · have hcrest : c ∈ rest := by
        rcases List.mem_cons.mp hcmem with rfl | h
        · exact absurd rfl hc
        · exact h
      cases hl : lookupKey m.spatialHash c₀ with
      | none => exact ih acc c j e hcrest hbucket hle hw
      | some bucket => exact ih _ c j e hcrest hbucket hle hw

end EM

namespace EM

theorem mem_intsFromTo (a b z : ℤ) : z ∈ intsFromTo a b ↔ (a ≤ z ∧ z ≤ b) := by
  unfold intsFromTo
  simp only [List.mem_map, List.mem_range]
  constructor
  · rintro ⟨n, hn, rfl⟩
    omega
  · rintro ⟨h₁, h₂⟩
    exact ⟨(z - a).toNat, by omega, by omega⟩

/-- The square of scanned cells (ceil(r / cellSize) cells in every
direction from the query cell) covers the cell of every point within
axis-wise distance r of the query position. -/
theorem getCellKey_mem_getCellsInRadius (p q : Vector2D) (r : ℚ)
    (hx : |p.x - q.x| ≤ r) (hy : |p.y - q.y| ≤ r) :
    getCellKey q ∈ getCellsInRadius p r := by
  have hcs : (0 : ℚ) < CELL_SIZE := by norm_num [CELL_SIZE]
  have key : ∀ a b : ℚ, |a - b| ≤ r →
      ⌊a / CELL_SIZE⌋ - ⌈r / CELL_SIZE⌉ ≤ ⌊b / CELL_SIZE⌋ ∧
      ⌊b / CELL_SIZE⌋ ≤ ⌊a / CELL_SIZE⌋ + ⌈r / CELL_SIZE⌉ := by
    intro a b hab
    obtain ⟨h₁, h₂⟩ := abs_le.mp hab
    have hceil : r / CELL_SIZE ≤ (⌈r / CELL_SIZE⌉ : ℚ) := Int.le_ceil _
    constructor
    · have hlow : a / CELL_SIZE - (⌈r / CELL_SIZE⌉ : ℚ) ≤ b / CELL_SIZE := by
        have h₃ : (a - r) / CELL_SIZE ≤ b / CELL_SIZE :=
          (div_le_div_iff_of_pos_right hcs).mpr (by linarith)
        rw [sub_div] at h₃
        linarith
      have h₄ := Int.floor_le_floor hlow
      rw [Int.floor_sub_int] at h₄
      exact h₄
    · have hhigh : b / CELL_SIZE ≤ a / CELL_SIZE + (⌈r / CELL_SIZE⌉ : ℚ) := by
        have h₃ : b / CELL_SIZE ≤ (a + r) / CELL_SIZE :=
          (div_le_div_iff_of_pos_right hcs).mpr (by linarith)
        rw [add_div] at h₃
        linarith
      have h₄ := Int.floor_le_floor hhigh
      rw [Int.floor_add_int] at h₄
      exact h₄
  obtain ⟨hx₁, hx₂⟩ := key p.x q.x hx
  obtain ⟨hy₁, hy₂⟩ := key p.y q.y hy
  unfold getCellsInRadius getCellKey
  simp only [List.mem_flatMap, List.mem_map, mem_intsFromTo]
  refine ⟨⌊q.x / CELL_SIZE⌋ - ⌊p.x / CELL_SIZE⌋, ⟨by omega, by omega⟩,
    ⌊q.y / CELL_SIZE⌋ - ⌊p.y / CELL_SIZE⌋, ⟨by omega, by omega⟩, ?_⟩
  simp only [Prod.mk.injEq]
  exact ⟨by omega, by omega⟩

/-- The spatial hash agrees exactly with the live entity positions: a
bucket holds an id precisely when a live entity with that id currently
hashes to that cell. -/
def HashConsistent (m : EntityManager) : Prop :=
  ∀ c i, inBucket m.spatialHash c i ↔
    ∃ e, lookupKey m.entities i = Option.some e ∧ getCellKey e.position = c

theorem hashConsistent_of_inv {m : EntityManager} (hinv : Inv m) : HashConsistent m :=
  hinv.hash

end EM

namespace EM

/-- C1: on any manager state whose spatial hash is consistent with the
live entity positions (as every reachable state is, see inv_reachable),
and for any radius r ≥ 0, queryRadius returns exactly the live entities
within Euclidean distance r of the query position: membership in the
result is equivalent to being a registered entity whose squared distance
to the position is at most r squared (for r ≥ 0 this is exactly
Euclidean distance ≤ r). The scanned square of cells — ceil(r/100) cells
in every direction — covers every cell that can hold such an entity
(getCellKey_mem_getCellsInRadius), so nothing in range is omitted, and
the exact distance filter admits nothing out of range. -/
theorem queryRadius_exact (m : EntityManager) (p : Vector2D) (r : ℚ)
    (hcons : HashConsistent m) (hr : 0 ≤ r) (e : Entity) :
    e ∈ queryRadius m p r ↔
      ((∃ i, lookupKey m.entities i = Option.some e) ∧
        (p.x - e.position.x) * (p.x - e.position.x) +
          (p.y - e.position.y) * (p.y - e.position.y) ≤ r * r) := by
  unfold queryRadius
  constructor
  · intro h
    obtain ⟨⟨i, e'⟩, hmem, heq⟩ := List.mem_map.mp h
    cases heq
    rcases gatherCells_sound m p r _ [] (i, e') hmem with habs | ⟨hl, hw⟩
    · exact absurd habs (List.not_mem_nil _)
    · refine ⟨⟨i, hl⟩, ?_⟩
      unfold isWithinRadius at hw
      exact of_decide_eq_true hw
  · rintro ⟨⟨i, hl⟩, hdist⟩
    have hw : isWithinRadius p e.position r = true := by
      unfold isWithinRadius
      exact decide_eq_true hdist
    have hb : inBucket m.spatialHash (getCellKey e.position) i :=
      (hcons (getCellKey e.position) i).mpr ⟨e, hl, rfl⟩
    have hx : |p.x - e.position.x| ≤ r := by
      rw [abs_le]
      constructor <;>
        nlinarith [mul_self_nonneg (p.y - e.position.y),
          mul_self_nonneg (p.x - e.position.x + r),
          mul_self_nonneg (p.x - e.position.x - r)]
    have hy : |p.y - e.position.y| ≤ r := by
      rw [abs_le]
      constructor <;>
        nlinarith [mul_self_nonneg (p.x - e.position.x),
          mul_self_nonneg (p.y - e.position.y + r),
          mul_self_nonneg (p.y - e.position.y - r)]
    have hcell : getCellKey e.position ∈ getCellsInRadius p r :=
      getCellKey_mem_getCellsInRadius p e.position r hx hy
    have hsome := gatherCells_complete m p r (getCellsInRadius p r) []
      (getCellKey e.position) i e hcell hb hl hw
    obtain ⟨e'', he''⟩ := Option.isSome_iff_exists.mp hsome
    have hmem : (i, e'') ∈ gatherCells m p r (getCellsInRadius p r) [] :=
      lookupKey_mem he''
    rcases gatherCells_sound m p r _ [] (i, e'') hmem with habs | ⟨hl'', _⟩
    · exact absurd habs (List.not_mem_nil _)
    · have heq : e'' = e := by
        rw [hl] at hl''
        exact (Option.some_inj.mp hl'').symm
      subst heq
      exact List.mem_map.mpr ⟨(i, e''), hmem, rfl⟩

end EM

namespace EM

/-- A stationary player entity at the origin (cell (0,0)). -/
def entA : Entity :=
  { id := "A", position := ⟨0, 0⟩, type := "player", updateFn := fun _ pos => pos }

/-- A stationary enemy entity at (250, 10) (cell (2,0)). -/
def entB : Entity :=
  { id := "B", position := ⟨250, 10⟩, type := "enemy", updateFn := fun _ pos => pos }

/-- The manager after registering entA and entB. -/
def demoManager : EntityManager :=
  applyEMOps emptyManager [EMOp.add entA, EMOp.add entB]

/-- Witness for C1 at a concrete state: with entities A(0,0) and
B(250,10) registered, queryRadius((0,0), 300) contains B, whose distance
(just over 250) is within the radius even though B sits two cells away. -/
theorem queryRadius_exact_witness :
    entB ∈ queryRadius demoManager ⟨0, 0⟩ 300 :=
  (queryRadius_exact demoManager ⟨0, 0⟩ 300
      (hashConsistent_of_inv (inv_reachable [EMOp.add entA, EMOp.add entB]))
      (by norm_num) entB).mpr
    ⟨⟨"B", by with_unfolding_all rfl⟩, by norm_num [entB]⟩

/-- C2: starting from a fresh manager, after any sequence of addEntity,
removeEntity and update calls: every live entity's id is in the bucket of
its current cell and in no other bucket; and an id with no live entity
(in particular any removed entity) is in no bucket and is never returned
by queryRadius or getEntitiesByType. -/
theorem spatialHash_exact_and_removed_absent (ops : List EMOp) :
    (∀ i e, lookupKey (applyEMOps emptyManager ops).entities i = Option.some e →
      inBucket (applyEMOps emptyManager ops).spatialHash (getCellKey e.position) i ∧
      (∀ c, c ≠ getCellKey e.position →
        ¬ inBucket (applyEMOps emptyManager ops).spatialHash c i)) ∧
    (∀ i, lookupKey (applyEMOps emptyManager ops).entities i = Option.none →
      (∀ c, ¬ inBucket (applyEMOps emptyManager ops).spatialHash c i) ∧
      (∀ p r e, e ∈ queryRadius (applyEMOps emptyManager ops) p r → e.id ≠ i) ∧
      (∀ t e, e ∈ getEntitiesByType (applyEMOps emptyManager ops) t → e.id ≠ i)) := by
  have hinv := inv_reachable ops
  constructor
  · intro i e hl
    refine ⟨(hinv.hash _ i).mpr ⟨e, hl, rfl⟩, ?_⟩
    intro c hc hb
    obtain ⟨e', he', hcell⟩ := (hinv.hash c i).mp hb
    rw [hl] at he'
    cases he'
    exact hc hcell.symm
  · intro i hnone
    refine ⟨?_, ?_, ?_⟩
    · intro c hb
      obtain ⟨e', he', _⟩ := (hinv.hash c i).mp hb
      rw [hnone] at he'
      cases he'
    · intro p r e hmem heq
      unfold queryRadius at hmem
      obtain ⟨⟨j, e'⟩, hmemp, hpe⟩ := List.mem_map.mp hmem
      cases hpe
      rcases gatherCells_sound _ p r _ [] (j, e') hmemp with habs | ⟨hl, _⟩
      · exact absurd habs (List.not_mem_nil _)
      · have hidj : e'.id = j := hinv.keyId j e' hl
        rw [hidj] at heq
        rw [heq] at hl
        rw [hnone] at hl
        cases hl
    · intro t e hmem heq
      unfold getEntitiesByType at hmem
      cases hc : lookupKey (applyEMOps emptyManager ops).entityTypeCache t with
      | none =>
        rw [hc] at hmem
        exact absurd hmem (List.not_mem_nil _)
      | some ids =>
        rw [hc] at hmem
        obtain ⟨j, hjids, hjl⟩ := List.mem_filterMap.mp hmem
        have hidj : e.id = j := hinv.keyId j e hjl
        rw [hidj] at heq
        rw [heq] at hjl
        rw [hnone] at hjl
        cases hjl

/-- Witness for C2 at a concrete sequence: after adding A(0,0) and then
removing it, the id A is absent from the bucket of its former cell (0,0),
and a queryRadius around the origin never returns an entity with id A. -/
theorem spatialHash_exact_and_removed_absent_witness :
    ¬ inBucket (applyEMOps emptyManager
        [EMOp.add entA, EMOp.remove "A"]).spatialHash (0, 0) "A" ∧
    (∀ e, e ∈ queryRadius (applyEMOps emptyManager
        [EMOp.add entA, EMOp.remove "A"]) ⟨0, 0⟩ 50 → e.id ≠ "A") :=
  ⟨((spatialHash_exact_and_removed_absent [EMOp.add entA, EMOp.remove "A"]).2 "A"
      (by with_unfolding_all rfl)).1 (0, 0),
   fun e hmem => ((spatialHash_exact_and_removed_absent
      [EMOp.add entA, EMOp.remove "A"]).2 "A"
      (by with_unfolding_all rfl)).2.1 ⟨0, 0⟩ 50 e hmem⟩

/-- C6: addEntity fails with an error exactly when an entity with the
same id is already registered — and since the throw happens before any
mutation, a failing call leaves the manager unchanged (the model returns
no new state on error; applyEMOp keeps the old state) — while a
successful call leaves the entity present in the primary map, in the
spatial-hash bucket of its current cell, in the type index of its type,
and marked for update. -/
theorem addEntity_duplicate_error_and_success (m : EntityManager) (e : Entity) :
    ((∃ msg, addEntity m e = Except.error msg) ↔
      (∃ e₀, lookupKey m.entities e.id = Option.some e₀)) ∧
    (∀ m', addEntity m e = Except.ok m' →
      lookupKey m'.entities e.id = Option.some e ∧
      inBucket m'.spatialHash (getCellKey e.position) e.id ∧
      inBucket m'.entityTypeCache e.type e.id ∧
      e.id ∈ m'.updateQueue) := by
  refine ⟨addEntity_error_iff m e, ?_⟩
  intro m' hok
  cases hlook : lookupKey m.entities e.id with
  | some e₀ =>
    rw [show addEntity m e = Except.error "Entity with ID already exists" from by
      unfold addEntity; rw [hlook]] at hok
    cases hok
  | none =>
    rw [addEntity_ok_eq m e hlook] at hok
    injection hok with hok
    subst hok
    refine ⟨lookupKey_setKey_self _ _ _, ?_, ?_, ?_⟩
    · show inBucket (setKey m.spatialHash (getCellKey e.position)
        (listAdd ((lookupKey m.spatialHash (getCellKey e.position)).getD []) e.id))
        (getCellKey e.position) e.id
      rw [inBucket_setKey_iff, if_pos rfl, mem_listAdd_iff]
      exact Or.inr rfl
    · show inBucket (setKey m.entityTypeCache e.type
        (listAdd ((lookupKey m.entityTypeCache e.type).getD []) e.id)) e.type e.id
      rw [inBucket_setKey_iff, if_pos rfl, mem_listAdd_iff]
      exact Or.inr rfl
    · show e.id ∈ listAdd m.updateQueue e.id
      rw [mem_listAdd_iff]
      exact Or.inr rfl

/-- Witness for C6 at concrete inputs: re-adding A to a manager that
already holds it throws, while adding A to a fresh manager succeeds and
registers it in the primary map and the update queue. -/
theorem addEntity_duplicate_error_and_success_witness :
    (∃ msg, addEntity demoManager entA = Except.error msg) ∧
    lookupKey (applyEMOp emptyManager (EMOp.add entA)).entities "A" =
      Option.some entA ∧
    "A" ∈ (applyEMOp emptyManager (EMOp.add entA)).updateQueue := by
  have hok : addEntity emptyManager entA =
      Except.ok (applyEMOp emptyManager (EMOp.add entA)) := by
    with_unfolding_all rfl
  have hpost := (addEntity_duplicate_error_and_success emptyManager entA).2 _ hok
  exact ⟨(addEntity_duplicate_error_and_success demoManager entA).1.mpr
      ⟨entA, by with_unfolding_all rfl⟩,
    hpost.1, hpost.2.2.2⟩

end EM
